import Mathlib

/-!
Verification of the Nebuia document-processing orchestration layer
(`exec.py` / `nebuia_client.py`) against its natural-language specification.

The source is shallowly embedded: Python JSON values become the inductive
type `Val`; the remote API is an oracle environment `Env` whose fields give
the response (or the raised exception, as `Except Err`) of each endpoint
call; time advances only through the explicit `sleep` calls of the polling
loops, so the k-th polling round happens at model time `k * interval`;
exceptions are the `Err` type, every constructor of which models a Python
`Exception` subclass (so a bare `except Exception` catches all of them).
-/

namespace Nebuia

/-- JSON-like values, mirroring the Python dicts/lists/strings the client
manipulates.  A Python `dict` is an association list of string keys in
insertion order (Python dict keys are unique; `del` removes the key). -/
inductive Val where
  | null
  | str (s : String)
  | bool (b : Bool)
  | int (n : Int)
  | list (xs : List Val)
  | dict (fields : List (String × Val))
  deriving Repr

/-- Boolean equality of JSON values (Python `==` on the values the client
manipulates). -/
def Val.beq : Val → Val → Bool
  | .null, .null => true
  | .str a, .str b => a == b
  | .bool a, .bool b => a == b
  | .int a, .int b => a == b
  | .list xs, .list ys => go xs ys
  | .dict fs, .dict gs => goF fs gs
  | _, _ => false
where
  go : List Val → List Val → Bool
    | [], [] => true
    | x :: xs, y :: ys => Val.beq x y && go xs ys
    | _, _ => false
  goF : List (String × Val) → List (String × Val) → Bool
    | [], [] => true
    | (k, v) :: fs, (l, w) :: gs => k == l && Val.beq v w && goF fs gs
    | _, _ => false

theorem Val.beq_iff_eq (a b : Val) : Val.beq a b = true ↔ a = b :=
  @Val.rec (fun a => ∀ b, Val.beq a b = true ↔ a = b)
    (fun xs => ∀ ys, Val.beq.go xs ys = true ↔ xs = ys)
    (fun fs => ∀ gs, Val.beq.goF fs gs = true ↔ fs = gs)
    (fun kv => ∀ lw, (kv.1 == lw.1 && Val.beq kv.2 lw.2) = true ↔ kv = lw)
    (fun b => by cases b <;> simp [Val.beq])
    (fun s b => by cases b <;> simp [Val.beq])
    (fun bb b => by cases b <;> simp [Val.beq])
    (fun n b => by cases b <;> simp [Val.beq])
    (fun xs ih b => by cases b <;> simp [Val.beq]; exact ih _)
    (fun fs ih b => by cases b <;> simp [Val.beq]; exact ih _)
    (fun ys => by cases ys <;> simp [Val.beq.go])
    (fun x xs ihx ihxs ys => by cases ys <;> simp [Val.beq.go, ihx, ihxs])
    (fun gs => by cases gs <;> simp [Val.beq.goF])
    (fun kv fs ihkv ihfs gs => by
      obtain ⟨k, v⟩ := kv
      cases gs with
      | nil => simp [Val.beq.goF]
      | cons lw gs =>
        obtain ⟨l, w⟩ := lw
        have h := ihkv (l, w)
        simp only [Bool.and_eq_true, Prod.mk.injEq] at h
        simp only [Val.beq.goF, Bool.and_assoc, Bool.and_eq_true, ihfs,
          List.cons.injEq, Prod.mk.injEq]
        tauto)
    (fun k v ihv lw => by
      obtain ⟨l, w⟩ := lw
      simp [ihv, Prod.ext_iff])
    a b

instance : DecidableEq Val := fun a b =>
  decidable_of_iff (Val.beq a b = true) (Val.beq_iff_eq a b)

/-- Python truthiness (`if not x`): `None`, `False`, `0`, `""`, `[]`, `{}`
are falsy, everything else truthy. -/
def Val.truthy : Val → Bool
  | .null => false
  | .str s => !s.isEmpty
  | .bool b => b
  | .int n => n != 0
  | .list xs => !xs.isEmpty
  | .dict fs => !fs.isEmpty

/-- Association-list lookup: first binding of the key (Python dicts have
unique keys, so this is Python `d[k]` / `d.get(k)` on a dict). -/
def alGet (m : List (String × Val)) (k : String) : Option Val :=
  match m with
  | [] => none
  | (k', v) :: rest => if k' = k then some v else alGet rest k

/-- Python `dict.get(k)` on a `Val`: `none` when the value is not a dict or
the key is absent. -/
def Val.get (v : Val) (k : String) : Option Val :=
  match v with
  | .dict fs => alGet fs k
  | _ => none

/-- Python `dict.get(k, default)`. -/
def Val.getD (v : Val) (k : String) (d : Val) : Val :=
  match v.get k with
  | some x => x
  | none => d

/-- Split a character list at `'/'` (the component structure Python's
`pathlib` builds from a POSIX path string). -/
def splitSlash : List Char → List (List Char)
  | [] => [[]]
  | x :: xs =>
    match splitSlash xs with
    | [] => [[]]
    | seg :: rest => if x = '/' then [] :: seg :: rest else (x :: seg) :: rest

/-- Python `Path(p).name`: the last nonempty component of the path
(trailing slashes are dropped by `pathlib`). -/
def pathName (p : String) : List Char :=
  match (splitSlash p.toList).filter (fun c => c ≠ []) |>.getLast? with
  | some n => n
  | none => []

/-- Index of the last occurrence of `c` in `cs`, if any (Python
`str.rfind`). -/
def lastIdxOf (cs : List Char) (c : Char) : Option Nat :=
  ((List.range cs.length).filter (fun i => cs.get? i = some c)).getLast?

/-- Python `Path(p).suffix`: with `name` the final component and `i` the
index of its last dot, the suffix is `name[i:]` when `0 < i < len(name)-1`
and `""` otherwise (so dotless names, hidden files like `".pdf"` and
trailing-dot names have no suffix). -/
def pathSuffix (p : String) : List Char :=
  let name := pathName p
  match lastIdxOf name '.' with
  | some i => if 0 < i ∧ i < name.length - 1 then name.drop i else []
  | none => []

/-- `path.suffix.lower() == '.pdf'`. -/
def isPdfSuffix (p : String) : Bool :=
  (pathSuffix p).map Char.toLower = ".pdf".toList

/-- `NebuiaHandler.validate_documents` (exec.py:108).  `fsExists` is the
local filesystem oracle (`Path.exists`); an entry is kept exactly when its
path exists and `path.suffix.lower() == '.pdf'`.  `str(path)` is modelled
as the identity on the path string (path normalisation by `pathlib` is
external-library behaviour). -/
def validate_documents (fsExists : String → Bool) (documents : List (String × String)) :
    List (String × String) :=
  match documents with
  | [] => []
  | (doc_type, file_path) :: rest =>
    if !fsExists file_path then
      validate_documents fsExists rest
    else if !isPdfSuffix file_path then
      validate_documents fsExists rest
    else
      (doc_type, file_path) :: validate_documents fsExists rest

/-- `validate_documents` is the filter of the input by the
exists-and-is-pdf predicate. -/
theorem validate_documents_eq_filter (fsExists : String → Bool)
    (documents : List (String × String)) :
    validate_documents fsExists documents =
      documents.filter (fun df => fsExists df.2 && isPdfSuffix df.2) := by
  induction documents with
  | nil => rfl
  | cons hd tl ih =>
    obtain ⟨dt, fp⟩ := hd
    by_cases hex : fsExists fp
    · by_cases hsuf : isPdfSuffix fp
      · simp [validate_documents, hex, hsuf, ih, List.filter]
      · simp [validate_documents, hex, hsuf, ih, List.filter]
    · simp [validate_documents, hex, ih, List.filter]

/-- **C7.** For every input mapping of document-type to file path,
`validate_documents` returns a mapping containing exactly those entries
whose path exists on local storage and whose file extension is `.pdf`
compared case-insensitively (`path.suffix.lower() == '.pdf'`); no other
entry appears in the result (and the function is total, so no exception is
raised for invalid entries). -/
theorem C7_validate_documents_filters (fsExists : String → Bool)
    (documents : List (String × String)) (doc_type file_path : String) :
    (doc_type, file_path) ∈ validate_documents fsExists documents ↔
      ((doc_type, file_path) ∈ documents ∧ fsExists file_path = true ∧
        (pathSuffix file_path).map Char.toLower = ".pdf".toList) := by
  rw [validate_documents_eq_filter, List.mem_filter]
  simp [isPdfSuffix, and_assoc]

/-- Exceptions the embedded code can raise.  Every constructor models a
Python `Exception` subclass, so a bare `except Exception` catches any
`Err`; `except NebuiaError` catches `nebuia` and `api` (NebuiaApiError is
a NebuiaError subclass); `except TimeoutError` catches `timeoutExceeded`. -/
inductive Err where
  | validation (msg : String)
  | api (statusCode : Nat) (msg : String)
  | nebuia (msg : Val)
  | timeoutExceeded (msg : String)
  | keyError (k : String)
  | typeError (msg : String)
  | attributeError (msg : String)
  deriving DecidableEq, Repr

/-- `except NebuiaError` applicability. -/
def Err.isNebuiaErr : Err → Bool
  | .nebuia _ => true
  | .api _ _ => true
  | _ => false

/-- `except TimeoutError` applicability. -/
def Err.isTimeoutErr : Err → Bool
  | .timeoutExceeded _ => true
  | _ => false

/-- `needle` occurs at the head of the character list. -/
def charsLead : List Char → List Char → Bool
  | [], _ => true
  | _ :: _, [] => false
  | a :: as, b :: bs => a == b && charsLead as bs

/-- `needle` occurs as a contiguous substring of the character list. -/
def charsContain (needle : List Char) : List Char → Bool
  | [] => needle.isEmpty
  | c :: cs => charsLead needle (c :: cs) || charsContain needle cs

/-- Python `k in v` for a string `k`: key membership on dicts, element
equality on lists, substring test on strings, `TypeError` otherwise. -/
def pyContains (k : String) (v : Val) : Except Err Bool :=
  match v with
  | .dict fs => .ok (fs.any (fun kv => kv.1 == k))
  | .list xs => .ok (xs.any (fun x => x == Val.str k))
  | .str s => .ok (charsContain k.toList s.toList)
  | _ => .error (.typeError "argument of type is not iterable")

/-- Python `v[k]` for a string key `k`. -/
def Val.getItem (v : Val) (k : String) : Except Err Val :=
  match v with
  | .dict fs =>
    match alGet fs k with
    | some x => .ok x
    | none => .error (.keyError k)
  | _ => .error (.typeError "object is not subscriptable by string")

/-- Python `v.copy()`: shallow copy, available on dicts and lists only. -/
def pyCopy (v : Val) : Except Err Val :=
  match v with
  | .dict fs => .ok (.dict fs)
  | .list xs => .ok (.list xs)
  | _ => .error (.attributeError "object has no attribute copy")

/-- Python `del v[k]` for a string key `k` (dicts only; the callers guard
key presence, and Python dict keys are unique, so removal is a filter). -/
def pyDelItem (v : Val) (k : String) : Except Err Val :=
  match v with
  | .dict fs => .ok (.dict (fs.filter (fun kv => kv.1 ≠ k)))
  | _ => .error (.typeError "object does not support item deletion")

/-- Association-list lookup with `Val` keys (the `extracted_info` dict of
`extract_document_entities` is keyed by the `document_type` value). -/
def alGetV (m : List (Val × List Val)) (k : Val) : Option (List Val) :=
  match m with
  | [] => none
  | (k', v) :: rest => if k' = k then some v else alGetV rest k

/-- Python dict assignment with `Val` keys: update the existing binding in
place, else append the new binding at the end (insertion order). -/
def alSetV (m : List (Val × List Val)) (k : Val) (v : List Val) : List (Val × List Val) :=
  match m with
  | [] => [(k, v)]
  | (k', v') :: rest => if k' = k then (k', v) :: rest else (k', v') :: alSetV rest k v

/-- The per-entity body of the inner loop of `extract_document_entities`
(exec.py:503-513): when `'structure' in entity`, copy the structure,
remove `name_to_show` if present, and hand back the cleaned structure to
append; `none` when the entity has no `structure` key. -/
def cleanEntity (entity : Val) : Except Err (Option Val) :=
  match pyContains "structure" entity with
  | .error e => .error e
  | .ok false => .ok none
  | .ok true =>
    match entity.getItem "structure" with
    | .error e => .error e
    | .ok st =>
      match pyCopy st with
      | .error e => .error e
      | .ok stCopy =>
        match pyContains "name_to_show" stCopy with
        | .error e => .error e
        | .ok true =>
          match pyDelItem stCopy "name_to_show" with
          | .error e => .error e
          | .ok cleaned => .ok (some cleaned)
        | .ok false => .ok (some stCopy)

/-- The inner entity loop of `extract_document_entities`: append each
cleaned structure to `extracted_info[doc_type]` (Python list-append on the
list stored under the key, which the caller has initialised). -/
def extractEntLoop (doc_type : Val) :
    List Val → List (Val × List Val) → Except Err (List (Val × List Val))
  | [], m => .ok m
  | e :: es, m =>
    match cleanEntity e with
    | .error err => .error err
    | .ok none => extractEntLoop doc_type es m
    | .ok (some st) =>
      match alGetV m doc_type with
      | none => .error (.keyError "document_type")
      | some cur => extractEntLoop doc_type es (alSetV m doc_type (cur ++ [st]))

/-- The per-document body of `extract_document_entities` (exec.py:494-513):
read `document_type` (default `"unknown"`), initialise the key with an
empty list if absent, then run the entity loop over
`document.get('entities', [])`. -/
def extractDoc (m : List (Val × List Val)) (document : Val) :
    Except Err (List (Val × List Val)) :=
  match document with
  | .dict _ =>
    let doc_type := document.getD "document_type" (.str "unknown")
    let m₀ := if (alGetV m doc_type).isSome then m else alSetV m doc_type []
    match document.getD "entities" (.list []) with
    | .list es => extractEntLoop doc_type es m₀
    | _ => .error (.typeError "entities is not iterable")
  | _ => .error (.attributeError "document has no attribute get")

/-- The document loop of `extract_document_entities`. -/
def extractDocsLoop : List Val → List (Val × List Val) → Except Err (List (Val × List Val))
  | [], m => .ok m
  | d :: ds, m =>
    match extractDoc m d with
    | .error e => .error e
    | .ok m' => extractDocsLoop ds m'

/-- `NebuiaHandler.extract_document_entities` (exec.py:476): build
`{document_type → [cleaned structure, …]}` from a completed record
payload; a falsy payload or one without a `documents` key yields the empty
mapping (logged as a warning in the source). -/
def extract_document_entities (record_result : Val) :
    Except Err (List (Val × List Val)) :=
  if !record_result.truthy then .ok []
  else
    match pyContains "documents" record_result with
    | .error e => .error e
    | .ok false => .ok []
    | .ok true =>
      match record_result.getItem "documents" with
      | .error e => .error e
      | .ok (.list ds) => extractDocsLoop ds []
      | .ok _ => .error (.typeError "documents is not iterable")

/-- The `document_type` key a document is filed under
(`document.get('document_type', 'unknown')`). -/
def docTypeOf (d : Val) : Val := d.getD "document_type" (.str "unknown")

/-- The entity list of a document (`document.get('entities', [])`). -/
def entitiesOf (d : Val) : List Val :=
  match d.getD "entities" (.list []) with
  | .list es => es
  | _ => []

/-- The cleaned structure of an entity as the specification describes it:
the nested `structure` sub-object with the `name_to_show` field removed
(`none` when the entity has no `structure`). -/
def entityCleaned (e : Val) : Option Val :=
  match e.get "structure" with
  | some (.dict sfs) => some (.dict (sfs.filter (fun kv => kv.1 ≠ "name_to_show")))
  | _ => none

/-- Well-formed entity: a dict whose `structure` value, when present, is a
dict. -/
def wfEntity (e : Val) : Prop :=
  (∃ efs, e = Val.dict efs) ∧
  (∀ v, e.get "structure" = some v → ∃ sfs, v = Val.dict sfs)

/-- Well-formed document: a dict with a string `document_type` whose
`entities` (defaulting to `[]`) is a list of well-formed entities. -/
def wfDocument (d : Val) : Prop :=
  (∃ dfs, d = Val.dict dfs) ∧
  (∃ es, d.getD "entities" (.list []) = Val.list es) ∧
  (∃ t, d.get "document_type" = some (Val.str t)) ∧
  (∀ e ∈ entitiesOf d, wfEntity e)

theorem alGet_isSome_iff_any (fs : List (String × Val)) (k : String) :
    (alGet fs k).isSome = fs.any (fun kv => kv.1 == k) := by
  induction fs with
  | nil => rfl
  | cons hd tl ih =>
    obtain ⟨k', v⟩ := hd
    by_cases h : k' = k <;> simp [alGet, h, ih]

theorem filter_ne_of_not_any (fs : List (String × Val)) (k : String)
    (h : fs.any (fun kv => kv.1 == k) = false) :
    fs.filter (fun kv => kv.1 ≠ k) = fs := by
  rw [List.filter_eq_self]
  intro kv hkv
  simp only [List.any_eq_false] at h
  simpa using h kv hkv

theorem cleanEntity_of_wf (e : Val) (hwf : wfEntity e) :
    cleanEntity e = .ok (entityCleaned e) := by
  obtain ⟨⟨efs, rfl⟩, hst⟩ := hwf
  unfold cleanEntity pyContains
  rcases hany : efs.any (fun kv => kv.1 == "structure") with _ | _
  · have : alGet efs "structure" = none := by
      have := alGet_isSome_iff_any efs "structure"
      rw [hany] at this
      exact Option.not_isSome_iff_eq_none.mp (by simp [this])
    simp [entityCleaned, Val.get, this, hany]
  · have hsome : (alGet efs "structure").isSome := by
      rw [alGet_isSome_iff_any, hany]
    obtain ⟨st, hget⟩ := Option.isSome_iff_exists.mp hsome
    obtain ⟨sfs, rfl⟩ := hst st (by simpa [Val.get] using hget)
    simp only [Val.getItem, hget, pyCopy, hany]
    rcases hany2 : sfs.any (fun kv => kv.1 == "name_to_show") with _ | _
    · simp only [entityCleaned, Val.get, hget, hany, hany2,
        filter_ne_of_not_any sfs _ hany2]
    · simp [pyDelItem, entityCleaned, Val.get, hget, hany, hany2]

theorem alGetV_alSetV (m : List (Val × List Val)) (k k' : Val) (v : List Val) :
    alGetV (alSetV m k v) k' = if k' = k then some v else alGetV m k' := by
  induction m with
  | nil =>
    simp only [alSetV, alGetV]
    by_cases h : k = k'
    · subst h
      simp
    · rw [if_neg h, if_neg (fun hh : k' = k => h hh.symm)]
  | cons hd tl ih =>
    obtain ⟨k₀, v₀⟩ := hd
    by_cases h0 : k₀ = k
    · subst h0
      simp only [alSetV, if_pos rfl, alGetV]
      by_cases h : k₀ = k'
      · subst h
        simp
      · rw [if_neg h, if_neg (fun hh : k' = k₀ => h hh.symm), if_neg h]
    · simp only [alSetV, if_neg h0, alGetV, ih]
      by_cases h : k₀ = k'
      · subst h
        rw [if_pos rfl, if_neg (fun hh : k₀ = k => h0 hh), if_pos rfl]
      · rw [if_neg h, if_neg h]

theorem extractEntLoop_ok (t : Val) (es : List Val) :
    ∀ (m : List (Val × List Val)) (cur : List Val),
    alGetV m t = some cur → (∀ e ∈ es, wfEntity e) →
    ∃ m', extractEntLoop t es m = .ok m' ∧
      alGetV m' t = some (cur ++ es.filterMap entityCleaned) ∧
      ∀ k, k ≠ t → alGetV m' k = alGetV m k := by
  induction es with
  | nil =>
    intro m cur hcur _
    exact ⟨m, rfl, by simpa using hcur, fun k _ => rfl⟩
  | cons e es ih =>
    intro m cur hcur hwf
    have hce := cleanEntity_of_wf e (hwf e (by simp))
    rcases hcl : entityCleaned e with _ | st
    · rw [hcl] at hce
      obtain ⟨m', hrun, hget, hpres⟩ := ih m cur hcur (fun e' he' => hwf e' (by simp [he']))
      exact ⟨m', by simp [extractEntLoop, hce, hrun], by simp [hcl, hget], hpres⟩
    · rw [hcl] at hce
      have hcur1 : alGetV (alSetV m t (cur ++ [st])) t = some (cur ++ [st]) := by
        simp [alGetV_alSetV]
      obtain ⟨m', hrun, hget, hpres⟩ :=
        ih (alSetV m t (cur ++ [st])) (cur ++ [st]) hcur1
          (fun e' he' => hwf e' (by simp [he']))
      refine ⟨m', by simp [extractEntLoop, hce, hcur, hrun], ?_, ?_⟩
      · simp [hget, hcl, List.append_assoc]
      · intro k hk
        rw [hpres k hk, alGetV_alSetV]
        simp [hk]

theorem extractDoc_ok (m : List (Val × List Val)) (d : Val) (hwf : wfDocument d) :
    ∃ m', extractDoc m d = .ok m' ∧
      alGetV m' (docTypeOf d) =
        some ((alGetV m (docTypeOf d)).getD [] ++ (entitiesOf d).filterMap entityCleaned) ∧
      ∀ k, k ≠ docTypeOf d → alGetV m' k = alGetV m k := by
  obtain ⟨⟨dfs, rfl⟩, ⟨es, hes⟩, _, hents⟩ := hwf
  have hentsOf : entitiesOf (Val.dict dfs) = es := by
    simp [entitiesOf, hes]
  rcases hget : alGetV m (docTypeOf (Val.dict dfs)) with _ | cur
  · have hcur : alGetV (alSetV m (docTypeOf (Val.dict dfs)) [])
        (docTypeOf (Val.dict dfs)) = some [] := by simp [alGetV_alSetV]
    obtain ⟨m', hrun, hgets, hpres⟩ :=
      extractEntLoop_ok (docTypeOf (Val.dict dfs)) es
        (alSetV m (docTypeOf (Val.dict dfs)) []) [] hcur
        (by rw [← hentsOf]; exact hents)
    refine ⟨m', ?_, ?_, ?_⟩
    · simp only [extractDoc, hes]
      rw [show Val.getD (Val.dict dfs) "document_type" (.str "unknown") =
        docTypeOf (Val.dict dfs) from rfl]
      simp [hget, hrun]
    · simp [hgets, hget, hentsOf]
    · intro k hk
      rw [hpres k hk, alGetV_alSetV]
      simp [hk]
  · obtain ⟨m', hrun, hgets, hpres⟩ :=
      extractEntLoop_ok (docTypeOf (Val.dict dfs)) es m cur hget
        (by rw [← hentsOf]; exact hents)
    refine ⟨m', ?_, ?_, ?_⟩
    · simp only [extractDoc, hes]
      rw [show Val.getD (Val.dict dfs) "document_type" (.str "unknown") =
        docTypeOf (Val.dict dfs) from rfl]
      simp [hget, hrun]
    · simp [hgets, hget, hentsOf]
    · exact hpres

theorem extractDocsLoop_ok (ds : List Val) :
    ∀ (m : List (Val × List Val)),
    (∀ d ∈ ds, wfDocument d) →
    (∀ d ∈ ds, alGetV m (docTypeOf d) = none) →
    (ds.map docTypeOf).Nodup →
    ∃ m', extractDocsLoop ds m = .ok m' ∧
      (∀ d ∈ ds, alGetV m' (docTypeOf d) = some ((entitiesOf d).filterMap entityCleaned)) ∧
      (∀ k, (∀ d ∈ ds, docTypeOf d ≠ k) → alGetV m' k = alGetV m k) := by
  induction ds with
  | nil => exact fun m _ _ _ => ⟨m, rfl, by simp, fun _ _ => rfl⟩
  | cons d ds ih =>
    intro m hwf hfresh hdist
    obtain ⟨m₁, hrun1, hget1, hpres1⟩ := extractDoc_ok m d (hwf d (by simp))
    have hhead : ∀ d' ∈ ds, docTypeOf d' ≠ docTypeOf d := by
      intro d' hd' heq
      simp only [List.map_cons, List.nodup_cons] at hdist
      exact hdist.1 (heq ▸ List.mem_map_of_mem docTypeOf hd')
    obtain ⟨m', hrun, hgets, hpres⟩ := ih m₁
      (fun d' hd' => hwf d' (by simp [hd']))
      (fun d' hd' => by
        rw [hpres1 _ (hhead d' hd'), hfresh d' (by simp [hd'])])
      (by simp only [List.map_cons, List.nodup_cons] at hdist; exact hdist.2)
    refine ⟨m', by simp [extractDocsLoop, hrun1, hrun], ?_, ?_⟩
    · intro d' hd'
      rcases List.mem_cons.mp hd' with rfl | hd'
      · rw [hpres _ (fun d'' hd'' => hhead d'' hd''), hget1,
          hfresh d' (by simp)]
        simp
      · exact hgets d' hd'
    · intro k hk
      rw [hpres k (fun d' hd' => hk d' (by simp [hd'])),
        hpres1 k (fun hh => hk d (by simp) hh.symm)]

/-- **C8.** For every Record payload, `extract_document_entities` returns a
mapping from each document's `document_type` to the list of that
document's entities' nested `structure` sub-objects with the
`name_to_show` field removed; a document with no entities yields an empty
list for its type rather than an absent key, and a payload with no
`documents` key (or a falsy payload) yields an empty overall mapping
without raising. -/
theorem C8_extract_document_entities (r : Val) :
    (r.truthy = false → extract_document_entities r = .ok []) ∧
    (∀ rfs, r = Val.dict rfs → alGet rfs "documents" = none →
      extract_document_entities r = .ok []) ∧
    (∀ rfs ds, r = Val.dict rfs → alGet rfs "documents" = some (Val.list ds) →
      (∀ d ∈ ds, wfDocument d) → (ds.map docTypeOf).Nodup →
      ∃ m, extract_document_entities r = .ok m ∧
        (∀ d ∈ ds, alGetV m (docTypeOf d) = some ((entitiesOf d).filterMap entityCleaned)) ∧
        (∀ k, (alGetV m k).isSome ↔ ∃ d ∈ ds, docTypeOf d = k)) := by
  refine ⟨fun hfalsy => by simp [extract_document_entities, hfalsy], ?_, ?_⟩
  · rintro rfs rfl hnone
    have hany : rfs.any (fun kv => kv.1 == "documents") = false := by
      have := alGet_isSome_iff_any rfs "documents"
      rw [hnone] at this
      simpa using this.symm
    by_cases htr : (Val.dict rfs).truthy
    · simp [extract_document_entities, htr, pyContains, hany]
    · simp [extract_document_entities, Bool.eq_false_iff.mpr htr]
  · rintro rfs ds rfl hdocs hwf hdist
    have hne : rfs ≠ [] := by
      intro h
      rw [h] at hdocs
      simp [alGet] at hdocs
    have htr : (Val.dict rfs).truthy = true := by
      simp [Val.truthy, hne]
    have hany : rfs.any (fun kv => kv.1 == "documents") = true := by
      have := alGet_isSome_iff_any rfs "documents"
      rw [hdocs] at this
      simpa using this.symm
    obtain ⟨m, hrun, hgets, hpres⟩ := extractDocsLoop_ok ds []
      hwf (fun _ _ => rfl) hdist
    refine ⟨m, ?_, hgets, ?_⟩
    · simp [extract_document_entities, htr, pyContains, hany, Val.getItem, hdocs, hrun]
    · intro k
      constructor
      · intro hsome
        by_contra hno
        push_neg at hno
        rw [hpres k (fun d hd => hno d hd)] at hsome
        simp [alGetV] at hsome
      · rintro ⟨d, hd, rfl⟩
        rw [hgets d hd]
        rfl

/-- Single concrete entity used in the C8 witness: structure
`{name_to_show: "X", value: 1}`. -/
def exEntC8 : Val :=
  .dict [("structure", .dict [("name_to_show", .str "X"), ("value", .int 1)])]

/-- Single concrete document used in the C8 witness. -/
def exDocC8 : Val :=
  .dict [("document_type", .str "docType"), ("entities", .list [exEntC8])]

/-- Concrete record payload used in the C8 witness. -/
def exRecordC8 : Val := .dict [("documents", .list [exDocC8])]

/-- Witness for C8: the specification's round-trip example — a record with
one document whose single entity has structure
`{name_to_show: "X", value: 1}` extracts to `{docType: [{value: 1}]}`. -/
theorem C8_extract_document_entities_witness :
    ∃ m, extract_document_entities exRecordC8 = .ok m ∧
      alGetV m (Val.str "docType") = some [Val.dict [("value", Val.int 1)]] := by
  have hwf : ∀ d ∈ [exDocC8], wfDocument d := by
    intro d hd
    simp only [List.mem_singleton] at hd
    subst hd
    refine ⟨⟨_, rfl⟩, ⟨_, rfl⟩, ⟨"docType", rfl⟩, ?_⟩
    intro e he
    have hE : entitiesOf exDocC8 = [exEntC8] := rfl
    rw [hE] at he
    simp only [List.mem_singleton] at he
    subst he
    refine ⟨⟨_, rfl⟩, ?_⟩
    intro v hv
    have hs : exEntC8.get "structure" =
        some (Val.dict [("name_to_show", Val.str "X"), ("value", Val.int 1)]) := rfl
    rw [hs] at hv
    exact ⟨_, (Option.some_injective _ hv).symm⟩
  obtain ⟨m, hrun, hgets, _⟩ :=
    (C8_extract_document_entities exRecordC8).2.2
      [("documents", Val.list [exDocC8])] [exDocC8] rfl rfl hwf (by decide)
  refine ⟨m, hrun, ?_⟩
  have h := hgets exDocC8 (by simp)
  rw [show docTypeOf exDocC8 = Val.str "docType" from rfl] at h
  rw [show (entitiesOf exDocC8).filterMap entityCleaned =
    [Val.dict [("value", Val.int 1)]] from rfl] at h
  exact h

/-! ### Heap model of `extract_document_entities` for the aliasing claim

In Python, `entity['structure']` is a reference to a mutable dict, and
`extract_document_entities` copies it (`entity['structure'].copy()`,
exec.py:506) before `del structure['name_to_show']` (exec.py:510).  To
state that the input record is left unchanged, the structure dicts are
heap-allocated here: a `Store` maps addresses to dicts, an entity holds
the address of its `structure` dict (`none` when the key is absent),
`.copy()` allocates a fresh address, and `del` mutates the store at an
address. -/

/-- Heap of structure dicts; an address is a list index. -/
abbrev Store := List (List (String × Val))

/-- Dereference an address. -/
def Store.read (σ : Store) (a : Nat) : List (String × Val) := σ.getD a []

/-- Allocate a fresh dict, returning the new store and its address. -/
def Store.alloc (σ : Store) (d : List (String × Val)) : Store × Nat :=
  (σ ++ [d], σ.length)

/-- Mutate the dict at an address. -/
def Store.write (σ : Store) (a : Nat) (d : List (String × Val)) : Store :=
  σ.set a d

/-- An entity, holding the address of its `structure` dict if any. -/
structure HEntity where
  structureRef : Option Nat

/-- A document: its `document_type` and its entities. -/
structure HDocument where
  document_type : String
  entities : List HEntity

/-- A record payload with a `documents` collection. -/
structure HRecord where
  documents : List HDocument

/-- Association-list lookup with values of any type. -/
def alGetG {α : Type} (m : List (String × α)) (k : String) : Option α :=
  match m with
  | [] => none
  | (k', v) :: rest => if k' = k then some v else alGetG rest k

/-- Python dict assignment (update in place or append). -/
def alSetG {α : Type} (m : List (String × α)) (k : String) (v : α) :
    List (String × α) :=
  match m with
  | [] => [(k, v)]
  | (k', v') :: rest =>
    if k' = k then (k', v) :: rest else (k', v') :: alSetG rest k v

/-- Heap-level entity loop of `extract_document_entities`
(exec.py:503-513): for each entity with a `structure`, allocate a copy of
the referenced dict, conditionally delete `name_to_show` in the copy, and
append the copy's address under the document type. -/
def extractEntsH (t : String) :
    List HEntity → Store → List (String × List Nat) → Store × List (String × List Nat)
  | [], σ, m => (σ, m)
  | e :: es, σ, m =>
    match e.structureRef with
    | none => extractEntsH t es σ m
    | some a =>
      let d := Store.read σ a
      let (σ₁, a') := Store.alloc σ d
      let σ₂ :=
        if d.any (fun kv => kv.1 == "name_to_show") then
          Store.write σ₁ a' (d.filter (fun kv => kv.1 ≠ "name_to_show"))
        else σ₁
      extractEntsH t es σ₂ (alSetG m t ((alGetG m t).getD [] ++ [a']))

/-- Heap-level document loop of `extract_document_entities`. -/
def extractDocsH :
    List HDocument → Store → List (String × List Nat) → Store × List (String × List Nat)
  | [], σ, m => (σ, m)
  | d :: ds, σ, m =>
    let m₀ :=
      if (alGetG m d.document_type).isSome then m
      else alSetG m d.document_type []
    let r := extractEntsH d.document_type d.entities σ m₀
    extractDocsH ds r.1 r.2

/-- Heap-level `extract_document_entities`: runs over the record's
documents threading the store of structure dicts. -/
def extract_document_entitiesH (r : HRecord) (σ : Store) :
    Store × List (String × List Nat) :=
  extractDocsH r.documents σ []

theorem getD_append_lt {α : Type} (xs ys : List α) (dflt : α) (b : Nat)
    (h : b < xs.length) : (xs ++ ys).getD b dflt = xs.getD b dflt := by
  induction xs generalizing b with
  | nil => simp at h
  | cons x xs ih =>
    cases b with
    | zero => rfl
    | succ b =>
      simp only [List.cons_append, List.getD_cons_succ]
      exact ih b (by simpa using h)

theorem getD_set_ne {α : Type} (xs : List α) (a b : Nat) (d dflt : α)
    (h : a ≠ b) : (xs.set a d).getD b dflt = xs.getD b dflt := by
  induction xs generalizing a b with
  | nil => rfl
  | cons x xs ih =>
    cases a with
    | zero =>
      cases b with
      | zero => exact absurd rfl h
      | succ b => rfl
    | succ a =>
      cases b with
      | zero => rfl
      | succ b =>
        simp only [List.set_cons_succ, List.getD_cons_succ]
        exact ih a b (fun hh => h (by rw [hh]))

/-- The store after one copy-then-maybe-delete step of the entity loop:
the allocated copy of `d` sits at address `σ.length`, mutated there when
`name_to_show` had to be removed. -/
def entStep (σ : Store) (d : List (String × Val)) : Store :=
  if d.any (fun kv => kv.1 == "name_to_show") then
    Store.write (σ ++ [d]) σ.length (d.filter (fun kv => kv.1 ≠ "name_to_show"))
  else σ ++ [d]

theorem entStep_frame (σ : Store) (d : List (String × Val)) :
    σ.length ≤ (entStep σ d).length ∧
    ∀ a, a < σ.length → Store.read (entStep σ d) a = Store.read σ a := by
  unfold entStep
  by_cases hdel : d.any (fun kv => kv.1 == "name_to_show")
  · refine ⟨by simp [hdel, Store.write], ?_⟩
    intro a ha
    simp only [if_pos hdel, Store.write, Store.read]
    rw [getD_set_ne _ _ _ _ _ (Nat.ne_of_gt ha)]
    exact getD_append_lt σ _ _ a ha
  · refine ⟨by simp [hdel], ?_⟩
    intro a ha
    simp only [if_neg hdel, Store.read]
    exact getD_append_lt σ _ _ a ha

/-- The heap-level entity loop only allocates fresh addresses and writes at
them: every pre-existing address keeps its dict, and the store only
grows. -/
theorem extractEntsH_frame (t : String) (es : List HEntity) :
    ∀ (σ : Store) (m : List (String × List Nat)),
      σ.length ≤ (extractEntsH t es σ m).1.length ∧
      ∀ a, a < σ.length →
        Store.read (extractEntsH t es σ m).1 a = Store.read σ a := by
  induction es with
  | nil => exact fun σ m => ⟨Nat.le_refl _, fun a _ => rfl⟩
  | cons e es ih =>
    intro σ m
    cases he : e.structureRef with
    | none =>
      obtain ⟨hlen, hread⟩ := ih σ m
      refine ⟨?_, ?_⟩ <;> simp only [extractEntsH, he]
      · exact hlen
      · exact hread
    | some a0 =>
      have hstep : extractEntsH t (e :: es) σ m =
          extractEntsH t es (entStep σ (Store.read σ a0))
            (alSetG m t ((alGetG m t).getD [] ++ [σ.length])) := by
        simp only [extractEntsH, he, Store.alloc, entStep]
      obtain ⟨hlen1, hread1⟩ := entStep_frame σ (Store.read σ a0)
      obtain ⟨hlen2, hread2⟩ :=
        ih (entStep σ (Store.read σ a0))
          (alSetG m t ((alGetG m t).getD [] ++ [σ.length]))
      refine ⟨?_, ?_⟩
      · rw [hstep]
        exact Nat.le_trans hlen1 hlen2
      · intro a ha
        rw [hstep, hread2 a (Nat.lt_of_lt_of_le ha hlen1), hread1 a ha]

/-- The heap-level document loop preserves every pre-existing address. -/
theorem extractDocsH_frame (ds : List HDocument) :
    ∀ (σ : Store) (m : List (String × List Nat)),
      σ.length ≤ (extractDocsH ds σ m).1.length ∧
      ∀ a, a < σ.length →
        Store.read (extractDocsH ds σ m).1 a = Store.read σ a := by
  induction ds with
  | nil => exact fun σ m => ⟨Nat.le_refl _, fun a _ => rfl⟩
  | cons d ds ih =>
    intro σ m
    obtain ⟨hlen1, hread1⟩ := extractEntsH_frame d.document_type d.entities σ
      (if (alGetG m d.document_type).isSome then m else alSetG m d.document_type [])
    obtain ⟨hlen2, hread2⟩ := ih (extractEntsH d.document_type d.entities σ
      (if (alGetG m d.document_type).isSome then m else alSetG m d.document_type [])).1
      (extractEntsH d.document_type d.entities σ
      (if (alGetG m d.document_type).isSome then m else alSetG m d.document_type [])).2
    refine ⟨?_, ?_⟩ <;> simp only [extractDocsH]
    · exact Nat.le_trans hlen1 hlen2
    · intro a ha
      rw [hread2 a (Nat.lt_of_lt_of_le ha hlen1), hread1 a ha]

/-- **C10.** For every input Record payload, `extract_document_entities`
leaves its argument unchanged: each entity's `structure` dict is copied
before the `name_to_show` field is deleted, so after the call every dict
reachable from the input record — in particular every entity's original
structure with its `name_to_show` field and all other fields — is exactly
as before. -/
theorem C10_extract_document_entities_frame (r : HRecord) (σ : Store)
    (a : Nat) (h : a < σ.length) :
    Store.read (extract_document_entitiesH r σ).1 a = Store.read σ a :=
  (extractDocsH_frame r.documents σ []).2 a h

/-- Witness for C10: a one-document, one-entity record whose structure
dict `{name_to_show: "X", value: 1}` lives at address 0; after extraction
address 0 still holds the original dict, `name_to_show` included. -/
theorem C10_extract_document_entities_frame_witness :
    0 < ([[("name_to_show", Val.str "X"), ("value", Val.int 1)]] : Store).length ∧
    Store.read (extract_document_entitiesH
        ⟨[⟨"docType", [⟨some 0⟩]⟩]⟩
        [[("name_to_show", Val.str "X"), ("value", Val.int 1)]]).1 0 =
      Store.read [[("name_to_show", Val.str "X"), ("value", Val.int 1)]] 0 :=
  ⟨by decide,
    C10_extract_document_entities_frame ⟨[⟨"docType", [⟨some 0⟩]⟩]⟩
      [[("name_to_show", Val.str "X"), ("value", Val.int 1)]] 0 (by decide)⟩

/-! ### The embedding wait loop `_wait_for_embedding` (exec.py:326-382)

Time is advanced only by the `time.sleep(check_interval)` at the end of
each round, so round `k` runs at model time `k * check_interval` and runs
only while `k * check_interval < timeout` (the `while time.time() -
start_time < timeout` guard).  The per-document status oracle is indexed
by the round number, since each round queries each document once. -/

/-- One polling round of `_wait_for_embedding` (exec.py:350-361): query
the status of EVERY tracked document (`for doc_type, doc_id in
document_ids.items()`) and rebuild the `pending_documents` list from
scratch; a check whose response has status `"complete"` contributes
nothing, any other status re-adds the document, and a raised error is
logged and re-adds it with status `"error"`. -/
def embeddingRound (document_ids : List (String × Val))
    (docStatus : Val → Nat → Except Err Val) (k : Nat) :
    List (String × Val × Val) :=
  match document_ids with
  | [] => []
  | (doc_type, doc_id) :: rest =>
    match docStatus doc_id k with
    | .ok resp =>
      let status := resp.getD "status" Val.null
      if status = Val.str "complete" then embeddingRound rest docStatus k
      else (doc_type, doc_id, status) :: embeddingRound rest docStatus k
    | .error _ => (doc_type, doc_id, Val.str "error") :: embeddingRound rest docStatus k

/-- The polling loop of `_wait_for_embedding` (exec.py:349-371).  Returns
the `all_documents_processed` flag and, for each executed round, the list
of document types status-checked in that round.  `fuel` bounds the
recursion; the wrapper supplies `timeout + 1`, which is never reached when
`check_interval ≥ 1` (the guard `k * check_interval < timeout` fails
first), so the fuel-exhausted value matches the guard-false value. -/
def wfeGo (document_ids : List (String × Val))
    (docStatus : Val → Nat → Except Err Val) (check_interval timeout : Nat) :
    Nat → Nat → Bool × List (List String)
  | 0, _ => (false, [])
  | fuel + 1, k =>
    if k * check_interval < timeout then
      let pending := embeddingRound document_ids docStatus k
      let checked := document_ids.map Prod.fst
      if pending.isEmpty then (true, [checked])
      else
        let r := wfeGo document_ids docStatus check_interval timeout fuel (k + 1)
        (r.1, checked :: r.2)
    else (false, [])

/-- `NebuiaHandler._wait_for_embedding` (exec.py:326): poll every tracked
document until a round finds none pending (returns `true`) or the
wall-clock budget is exhausted (returns `false`). -/
def _wait_for_embedding (document_ids : List (String × Val))
    (docStatus : Val → Nat → Except Err Val) (check_interval timeout : Nat) :
    Bool × List (List String) :=
  wfeGo document_ids docStatus check_interval timeout (timeout + 1) 0

/-- A status-check result counts as terminal success when the call
succeeded and the response's `status` equals `"complete"`. -/
def statusComplete (r : Except Err Val) : Bool :=
  match r with
  | .ok resp => resp.getD "status" Val.null = Val.str "complete"
  | .error _ => false

theorem wfeGo_true_sound (ids : List (String × Val))
    (docStatus : Val → Nat → Except Err Val) (interval timeout : Nat) :
    ∀ fuel k, (wfeGo ids docStatus interval timeout fuel k).1 = true →
      ∃ j, k ≤ j ∧ j * interval < timeout ∧
        embeddingRound ids docStatus j = [] := by
  intro fuel
  induction fuel with
  | zero =>
    intro k h
    simp [wfeGo] at h
  | succ fuel ih =>
    intro k h
    simp only [wfeGo] at h
    split_ifs at h with hg hp
    · exact ⟨k, Nat.le_refl k, hg, List.isEmpty_iff.mp hp⟩
    · obtain ⟨j, hj1, hj2, hj3⟩ := ih (k + 1) h
      exact ⟨j, by omega, hj2, hj3⟩

theorem wfeGo_true_complete (ids : List (String × Val))
    (docStatus : Val → Nat → Except Err Val) (interval timeout : Nat) :
    ∀ fuel k j, k ≤ j → j * interval < timeout →
      embeddingRound ids docStatus j = [] →
      (∀ i, k ≤ i → i < j → embeddingRound ids docStatus i ≠ []) →
      j < k + fuel →
      (wfeGo ids docStatus interval timeout fuel k).1 = true := by
  intro fuel
  induction fuel with
  | zero =>
    intro k j hkj _ _ _ hfuel
    omega
  | succ fuel ih =>
    intro k j hkj hbud hempty hpend hfuel
    have hg : k * interval < timeout :=
      Nat.lt_of_le_of_lt (Nat.mul_le_mul_right interval hkj) hbud
    rcases Nat.eq_or_lt_of_le hkj with rfl | hlt
    · simp [wfeGo, hg, hempty]
    · have hne : embeddingRound ids docStatus k ≠ [] :=
        hpend k (Nat.le_refl k) hlt
      simp only [wfeGo, if_pos hg]
      rw [if_neg (by simpa [List.isEmpty_iff] using hne)]
      exact ih (k + 1) j hlt hbud hempty
        (fun i hi1 hi2 => hpend i (by omega) hi2) (by omega)

theorem wfe_first_round_checks_all (ids : List (String × Val))
    (docStatus : Val → Nat → Except Err Val) (interval timeout : Nat)
    (htime : 1 ≤ timeout) :
    (_wait_for_embedding ids docStatus interval timeout).2.head? =
      some (ids.map Prod.fst) := by
  have hg : 0 * interval < timeout := by omega
  unfold _wait_for_embedding
  simp only [wfeGo, if_pos hg]
  by_cases hp : (embeddingRound ids docStatus 0).isEmpty <;> simp [hp]

/-- **C4 (amended).** Provided the polling interval and the timeout are
positive: the loop returns `true` iff some executed round (at model time
`k * interval < timeout`) observes every tracked item complete
simultaneously — equivalently, finds its freshly rebuilt pending list
empty — and returns `false` when the wall-clock budget expires with no
such round; and the first round, which runs before any sleep,
status-checks every tracked item. -/
theorem C4_wait_for_embedding_amended (ids : List (String × Val))
    (docStatus : Val → Nat → Except Err Val) (interval timeout : Nat)
    (hint : 1 ≤ interval) (htime : 1 ≤ timeout) :
    ((_wait_for_embedding ids docStatus interval timeout).1 = true ↔
      ∃ k, k * interval < timeout ∧ embeddingRound ids docStatus k = []) ∧
    (_wait_for_embedding ids docStatus interval timeout).2.head? =
      some (ids.map Prod.fst) := by
  refine ⟨⟨?_, ?_⟩, wfe_first_round_checks_all ids docStatus interval timeout htime⟩
  · intro h
    obtain ⟨j, _, hj2, hj3⟩ :=
      wfeGo_true_sound ids docStatus interval timeout (timeout + 1) 0 h
    exact ⟨j, hj2, hj3⟩
  · intro hP
    have j := Nat.find hP
    obtain ⟨hbud, hempty⟩ := Nat.find_spec hP
    refine wfeGo_true_complete ids docStatus interval timeout (timeout + 1) 0
      (Nat.find hP) (Nat.zero_le _) hbud hempty ?_ ?_
    · intro i _ hij hie
      exact Nat.find_min hP hij
        ⟨Nat.lt_of_le_of_lt (Nat.mul_le_mul_right interval (Nat.le_of_lt hij)) hbud, hie⟩
    · have : Nat.find hP ≤ Nat.find hP * interval :=
        Nat.le_mul_of_pos_right _ hint
      omega

/-- Tracked documents used in the polling-loop examples. -/
def exIdsEmb : List (String × Val) := [("a", Val.str "ida"), ("b", Val.str "idb")]

/-- Status oracle where `ida` is complete exactly at round 0 and `idb`
exactly at round 1 — each document's check reaches `complete` within the
budget, but never all in the same round. -/
def exStatusAlt : Val → Nat → Except Err Val := fun did k =>
  .ok (.dict [("status", .str
    (if (did = Val.str "ida" ∧ k = 0) ∨ (did = Val.str "idb" ∧ k = 1)
     then "complete" else "pending"))])

/-- **C4 (counterexample).** With interval 1 and timeout 10, document
`a`'s check returns `complete` at round 0 and `b`'s at round 1 — so every
tracked item's status check reaches the success sentinel within the
timeout, and all ten rounds run — yet `_wait_for_embedding` returns
`false`: the loop rebuilds the pending list from scratch each round and
only succeeds when one single round sees all items complete. -/
theorem C4_wait_for_embedding_cex :
    statusComplete (exStatusAlt (Val.str "ida") 0) = true ∧
    statusComplete (exStatusAlt (Val.str "idb") 1) = true ∧
    (_wait_for_embedding exIdsEmb exStatusAlt 1 10).2.length = 10 ∧
    (_wait_for_embedding exIdsEmb exStatusAlt 1 10).1 = false := by
  refine ⟨by decide, by decide, by decide, by decide⟩

/-- Status oracle where `ida` is complete from round 0 on and `idb` from
round 1 on. -/
def exStatusMono : Val → Nat → Except Err Val := fun did k =>
  .ok (.dict [("status", .str
    (if did = Val.str "ida" ∨ 1 ≤ k then "complete" else "pending"))])

/-- Witness for the amended C4 at a concrete input: interval 1, timeout
10, statuses monotone, loop succeeds at round 1. -/
theorem C4_wait_for_embedding_amended_witness :
    1 ≤ 1 ∧ 1 ≤ 10 ∧
    (((_wait_for_embedding exIdsEmb exStatusMono 1 10).1 = true ↔
      ∃ k, k * 1 < 10 ∧ embeddingRound exIdsEmb exStatusMono k = []) ∧
    (_wait_for_embedding exIdsEmb exStatusMono 1 10).2.head? =
      some (exIdsEmb.map Prod.fst)) :=
  ⟨by decide, by decide,
    C4_wait_for_embedding_amended exIdsEmb exStatusMono 1 10 (by decide) (by decide)⟩

theorem embeddingRound_keys_sub (docStatus : Val → Nat → Except Err Val) :
    ∀ (ids : List (String × Val)) (k : Nat) x,
      x ∈ embeddingRound ids docStatus k → x.1 ∈ ids.map Prod.fst := by
  intro ids
  induction ids with
  | nil =>
    intro k x h
    simp [embeddingRound] at h
  | cons hd tl ih =>
    obtain ⟨dt', did'⟩ := hd
    intro k x h
    simp only [embeddingRound] at h
    cases hds : docStatus did' k with
    | ok resp =>
      rw [hds] at h
      simp only [] at h
      by_cases hc : resp.getD "status" Val.null = Val.str "complete"
      · rw [if_pos hc] at h
        exact List.mem_cons_of_mem _ (ih k x h)
      · rw [if_neg hc] at h
        rcases List.mem_cons.mp h with rfl | h'
        · simp
        · exact List.mem_cons_of_mem _ (ih k x h')
    | error e =>
      rw [hds] at h
      rcases List.mem_cons.mp h with rfl | h'
      · simp
      · exact List.mem_cons_of_mem _ (ih k x h')

theorem embeddingRound_complete_not_pending
    (docStatus : Val → Nat → Except Err Val) :
    ∀ (ids : List (String × Val)) (k : Nat) (doc_type : String) (doc_id : Val),
      (ids.map Prod.fst).Nodup → (doc_type, doc_id) ∈ ids →
      statusComplete (docStatus doc_id k) = true →
      doc_type ∉ (embeddingRound ids docStatus k).map (fun x => x.1) := by
  intro ids
  induction ids with
  | nil =>
    intro k dt did _ hmem
    simp at hmem
  | cons hd tl ih =>
    obtain ⟨dt', did'⟩ := hd
    intro k dt did hnd hmem hcomp
    simp only [List.map_cons, List.nodup_cons] at hnd
    rcases List.mem_cons.mp hmem with heq | hmem'
    · obtain ⟨rfl, rfl⟩ := Prod.mk.injEq .. ▸ heq
      cases hds : docStatus did k with
      | ok resp =>
        rw [hds] at hcomp
        have hc : resp.getD "status" Val.null = Val.str "complete" := by
          simpa [statusComplete] using hcomp
        simp only [embeddingRound, hds, if_pos hc]
        intro hin
        obtain ⟨x, hx, hfst⟩ := List.mem_map.mp hin
        exact hnd.1 (hfst ▸ embeddingRound_keys_sub docStatus tl k x hx)
      | error e =>
        rw [hds] at hcomp
        simp [statusComplete] at hcomp
    · have hne : dt' ≠ dt := by
        intro h
        exact hnd.1 (h ▸ List.mem_map_of_mem Prod.fst hmem')
      have htail : dt ∉ (embeddingRound tl docStatus k).map (fun x => x.1) :=
        ih k dt did hnd.2 hmem' hcomp
      cases hds : docStatus did' k with
      | ok resp =>
        by_cases hc : resp.getD "status" Val.null = Val.str "complete"
        · simpa [embeddingRound, hds, if_pos hc] using htail
        · simp only [embeddingRound, hds, if_neg hc, List.map_cons]
          intro hin
          rcases List.mem_cons.mp hin with heq2 | hin'
          · exact hne heq2.symm
          · exact htail hin'
      | error e =>
        simp only [embeddingRound, hds, List.map_cons]
        intro hin
        rcases List.mem_cons.mp hin with heq2 | hin'
        · exact hne heq2.symm
        · exact htail hin'

theorem wfeGo_rounds_check_all (ids : List (String × Val))
    (docStatus : Val → Nat → Except Err Val) (interval timeout : Nat) :
    ∀ fuel k, ∀ r ∈ (wfeGo ids docStatus interval timeout fuel k).2,
      r = ids.map Prod.fst := by
  intro fuel
  induction fuel with
  | zero =>
    intro k r h
    simp [wfeGo] at h
  | succ fuel ih =>
    intro k r h
    simp only [wfeGo] at h
    split_ifs at h with hg hp
    · simpa using h
    · rcases List.mem_cons.mp h with rfl | h'
      · rfl
      · exact ih (k + 1) r h'
    · simp at h

/-- **C5 (amended).** The loop does NOT keep a persistent pending set
across iterations: every executed round status-checks every tracked item,
re-querying items whose earlier checks already returned `complete`.
Within a single round, however, an item whose check returns the terminal
success value is omitted from that round's freshly rebuilt pending list
(so a round in which every check returns `complete` ends the loop). -/
theorem C5_wait_for_embedding_rounds (ids : List (String × Val))
    (docStatus : Val → Nat → Except Err Val) (interval timeout : Nat)
    (hnodup : (ids.map Prod.fst).Nodup) :
    (∀ r ∈ (_wait_for_embedding ids docStatus interval timeout).2,
      r = ids.map Prod.fst) ∧
    (∀ (k : Nat) (doc_type : String) (doc_id : Val), (doc_type, doc_id) ∈ ids →
      statusComplete (docStatus doc_id k) = true →
      doc_type ∉ (embeddingRound ids docStatus k).map (fun x => x.1)) :=
  ⟨fun r h => wfeGo_rounds_check_all ids docStatus interval timeout (timeout + 1) 0 r h,
   fun k dt did hmem hcomp =>
     embeddingRound_complete_not_pending docStatus ids k dt did hnodup hmem hcomp⟩

/-- **C5 (counterexample).** Document `a`'s status check at round 0
returns the terminal success value, yet round 1 (executed because `b` was
still pending) status-checks `a` again: both executed rounds check both
document types. -/
theorem C5_wait_for_embedding_cex :
    statusComplete (exStatusMono (Val.str "ida") 0) = true ∧
    (_wait_for_embedding exIdsEmb exStatusMono 1 10).2 =
      [["a", "b"], ["a", "b"]] := by
  refine ⟨by decide, by decide⟩

/-- Witness for the amended C5 at a concrete input. -/
theorem C5_wait_for_embedding_rounds_witness :
    (∀ r ∈ (_wait_for_embedding exIdsEmb exStatusMono 1 10).2,
      r = exIdsEmb.map Prod.fst) ∧
    (∀ (k : Nat) (doc_type : String) (doc_id : Val),
      (doc_type, doc_id) ∈ exIdsEmb →
      statusComplete (exStatusMono doc_id k) = true →
      doc_type ∉ (embeddingRound exIdsEmb exStatusMono k).map (fun x => x.1)) :=
  C5_wait_for_embedding_rounds exIdsEmb exStatusMono 1 10 (by decide)

/-! ### `wait_for_record_completion` (nebuia_client.py:778-827)

The single-entity polling primitive: fetch `n` is `get_record_details`
called for the n-th time, at model time `n * polling_interval` (the clock
advances only through `time.sleep(polling_interval)`), performed while
`n * polling_interval < timeout`.  The optional `status_callback` only
prints/logs on each poll and is dropped.  The function returns the
outcome together with the model times of the performed fetches. -/

/-- `record_details.get("status", "unknown") == s`: only a string status
can equal a sentinel string. -/
def statusIs (rd : Val) (s : String) : Bool :=
  rd.getD "status" (.str "unknown") = Val.str s

/-- `record_details.get("error_message", "Unknown error")`: the message
extracted from a failed record snapshot, carried by the raised
`NebuiaError` (the source interpolates it into
`"Record processing failed: {…}"`). -/
def errMsgOf (rd : Val) : Val := rd.getD "error_message" (.str "Unknown error")

/-- The `TimeoutError` message of `wait_for_record_completion`. -/
def timeoutMsg (record_id : String) (timeout : Nat) : String :=
  "Timeout exceeded for record " ++ record_id ++ " after " ++
    toString timeout ++ " seconds"

/-- The polling loop of `wait_for_record_completion`: fetch, compare the
status against the `"complete"` and `"error"` sentinels, sleep, repeat
while the elapsed model time is below `timeout`.  A fetch that raises
propagates its exception.  `fuel` starts at `timeout + 1`, never reached
when `polling_interval ≥ 1`, and the fuel-exhausted value matches the
guard-false value. -/
def wfrGo (record_id : String) (fetch : Nat → Except Err Val)
    (timeout polling_interval : Nat) : Nat → Nat → Except Err Val × List Nat
  | 0, _ => (.error (.timeoutExceeded (timeoutMsg record_id timeout)), [])
  | fuel + 1, n =>
    if n * polling_interval < timeout then
      match fetch n with
      | .error e => (.error e, [n * polling_interval])
      | .ok rd =>
        if statusIs rd "complete" then (.ok rd, [n * polling_interval])
        else if statusIs rd "error" then
          (.error (.nebuia (errMsgOf rd)), [n * polling_interval])
        else
          let r := wfrGo record_id fetch timeout polling_interval fuel (n + 1)
          (r.1, n * polling_interval :: r.2)
    else (.error (.timeoutExceeded (timeoutMsg record_id timeout)), [])

/-- `NebuiaClient.wait_for_record_completion` (nebuia_client.py:778). -/
def wait_for_record_completion (record_id : String)
    (fetch : Nat → Except Err Val) (timeout polling_interval : Nat) :
    Except Err Val × List Nat :=
  wfrGo record_id fetch timeout polling_interval (timeout + 1) 0

/-- The three termination shapes claimed for `wait_for_record_completion`:
returning a snapshot, raising the remote-processing `NebuiaError`, or
raising `TimeoutError`. -/
def threeWayOutcome (r : Except Err Val) : Bool :=
  match r with
  | .ok _ => true
  | .error (.nebuia _) => true
  | .error (.timeoutExceeded _) => true
  | _ => false

theorem wfrGo_trichotomy (record_id : String) (fetch : Nat → Except Err Val)
    (timeout interval : Nat) (hok : ∀ m, ∃ v, fetch m = .ok v) :
    ∀ fuel n,
      (∃ j rd, n ≤ j ∧ j * interval < timeout ∧ fetch j = .ok rd ∧
        statusIs rd "complete" = true ∧
        (wfrGo record_id fetch timeout interval fuel n).1 = .ok rd) ∨
      (∃ j rd, n ≤ j ∧ j * interval < timeout ∧ fetch j = .ok rd ∧
        statusIs rd "error" = true ∧
        (wfrGo record_id fetch timeout interval fuel n).1 =
          .error (.nebuia (errMsgOf rd))) ∨
      ((wfrGo record_id fetch timeout interval fuel n).1 =
        .error (.timeoutExceeded (timeoutMsg record_id timeout))) := by
  intro fuel
  induction fuel with
  | zero =>
    intro n
    right; right
    rfl
  | succ fuel ih =>
    intro n
    by_cases hg : n * interval < timeout
    · obtain ⟨rd, hrd⟩ := hok n
      by_cases hc : statusIs rd "complete" = true
      · left
        exact ⟨n, rd, Nat.le_refl n, hg, hrd, hc, by
          simp [wfrGo, hg, hrd, hc]⟩
      · by_cases he : statusIs rd "error" = true
        · right; left
          exact ⟨n, rd, Nat.le_refl n, hg, hrd, he, by
            simp [wfrGo, hg, hrd, hc, he]⟩
        · have hred : (wfrGo record_id fetch timeout interval (fuel + 1) n).1 =
              (wfrGo record_id fetch timeout interval fuel (n + 1)).1 := by
            simp [wfrGo, hg, hrd, hc, he]
          rcases ih (n + 1) with ⟨j, rd', hj, hb, hf, hs, hr⟩ |
            ⟨j, rd', hj, hb, hf, hs, hr⟩ | hr
          · exact Or.inl ⟨j, rd', by omega, hb, hf, hs, by rw [hred, hr]⟩
          · exact Or.inr (Or.inl ⟨j, rd', by omega, hb, hf, hs, by rw [hred, hr]⟩)
          · exact Or.inr (Or.inr (by rw [hred, hr]))
    · right; right
      simp [wfrGo, hg]

theorem wfrGo_times (record_id : String) (fetch : Nat → Except Err Val)
    (timeout interval : Nat) :
    ∀ fuel n,
      (wfrGo record_id fetch timeout interval fuel n).2 =
        (List.range (wfrGo record_id fetch timeout interval fuel n).2.length).map
          (fun i => (n + i) * interval) := by
  intro fuel
  induction fuel with
  | zero =>
    intro n
    rfl
  | succ fuel ih =>
    intro n
    by_cases hg : n * interval < timeout
    · cases hrd : fetch n with
      | error e => simp [wfrGo, hg, hrd, List.range_succ]
      | ok rd =>
        by_cases hc : statusIs rd "complete" = true
        · simp [wfrGo, hg, hrd, hc, List.range_succ]
        · by_cases he : statusIs rd "error" = true
          · simp [wfrGo, hg, hrd, hc, he, List.range_succ]
          · have hred : (wfrGo record_id fetch timeout interval (fuel + 1) n).2 =
                n * interval ::
                  (wfrGo record_id fetch timeout interval fuel (n + 1)).2 := by
              simp [wfrGo, hg, hrd, hc, he]
            rw [hred]
            conv_lhs => rw [ih (n + 1)]
            rw [List.length_cons, List.range_succ_eq_map]
            simp only [List.map_cons, List.map_map, Function.comp_def, Nat.add_zero]
            congr 1
            apply List.map_congr_left
            intro i _
            congr 1
            omega
    · simp [wfrGo, hg]

theorem wfr_first_fetch_immediate (record_id : String)
    (fetch : Nat → Except Err Val) (timeout interval : Nat)
    (htime : 1 ≤ timeout) :
    (wait_for_record_completion record_id fetch timeout interval).2.head? =
      some 0 := by
  have hg : 0 * interval < timeout := by omega
  have hpos : 0 < timeout := htime
  unfold wait_for_record_completion
  cases hrd : fetch 0 with
  | error e => simp [wfrGo, hg, hrd, hpos]
  | ok rd =>
    by_cases hc : statusIs rd "complete" = true
    · simp [wfrGo, hg, hrd, hc, hpos]
    · by_cases he : statusIs rd "error" = true
      · simp [wfrGo, hg, hrd, hc, he, hpos]
      · simp [wfrGo, hg, hrd, hc, he, hpos]

/-- **C6 (amended).** Provided the polling interval is positive and every
performed fetch succeeds, `wait_for_record_completion` terminates in
exactly one of three ways: a fetched status `"complete"` returns that
snapshot; a fetched status `"error"` raises the remote-processing error
carrying the message extracted from the entity; otherwise the timeout
error is raised once the budget is exhausted.  The fetch times are
`0, interval, 2·interval, …` (fetches separated by exactly one sleep
interval), and when `timeout > 0` the first fetch happens immediately at
time 0.  (As stated the claim is false: a fetch that raises — e.g. a
`NebuiaApiError` from `get_record_details` — propagates, a fourth
outcome, and with `timeout = 0` no first fetch is performed; see the
counterexample.) -/
theorem C6_wait_for_record_completion_amended (record_id : String)
    (fetch : Nat → Except Err Val) (timeout interval : Nat)
    (hint : 1 ≤ interval) (hok : ∀ m, ∃ v, fetch m = .ok v) :
    ((∃ j rd, j * interval < timeout ∧ fetch j = .ok rd ∧
        statusIs rd "complete" = true ∧
        (wait_for_record_completion record_id fetch timeout interval).1 = .ok rd) ∨
     (∃ j rd, j * interval < timeout ∧ fetch j = .ok rd ∧
        statusIs rd "error" = true ∧
        (wait_for_record_completion record_id fetch timeout interval).1 =
          .error (.nebuia (errMsgOf rd))) ∨
     ((wait_for_record_completion record_id fetch timeout interval).1 =
        .error (.timeoutExceeded (timeoutMsg record_id timeout)))) ∧
    ((wait_for_record_completion record_id fetch timeout interval).2 =
      (List.range
        (wait_for_record_completion record_id fetch timeout interval).2.length).map
        (fun i => i * interval)) ∧
    (1 ≤ timeout →
      (wait_for_record_completion record_id fetch timeout interval).2.head? =
        some 0) := by
  refine ⟨?_, ?_, fun ht => wfr_first_fetch_immediate record_id fetch timeout interval ht⟩
  · rcases wfrGo_trichotomy record_id fetch timeout interval hok (timeout + 1) 0 with
      ⟨j, rd, _, hb, hf, hs, hr⟩ | ⟨j, rd, _, hb, hf, hs, hr⟩ | hr
    · exact Or.inl ⟨j, rd, hb, hf, hs, hr⟩
    · exact Or.inr (Or.inl ⟨j, rd, hb, hf, hs, hr⟩)
    · exact Or.inr (Or.inr hr)
  · have h := wfrGo_times record_id fetch timeout interval (timeout + 1) 0
    simpa using h

/-- Fetch oracle raising a `NebuiaApiError` on its first call. -/
def exFetchApiErr : Nat → Except Err Val := fun _ =>
  .error (.api 500 "Request failed: Internal Server Error")

/-- **C6 (counterexample).** With a first fetch that raises a
`NebuiaApiError` (interval 1, timeout 10), `wait_for_record_completion`
propagates that exception: the run terminates in none of the three
claimed ways (no snapshot returned, no remote-processing error, no
timeout error). -/
theorem C6_wait_for_record_completion_cex :
    (wait_for_record_completion "r1" exFetchApiErr 10 1).1 =
      .error (.api 500 "Request failed: Internal Server Error") ∧
    threeWayOutcome (wait_for_record_completion "r1" exFetchApiErr 10 1).1 = false := by
  refine ⟨rfl, rfl⟩

/-- Fetch oracle: `pending` at fetches 0 and 1, `complete` from fetch 2. -/
def exFetchPPC : Nat → Except Err Val := fun n =>
  .ok (.dict [("status", .str (if 2 ≤ n then "complete" else "pending"))])

/-- Witness for the amended C6 at a concrete input: the specification's
`[pending, pending, complete]` sequence polled every 1s with timeout
10s. -/
theorem C6_wait_for_record_completion_amended_witness :
    1 ≤ 1 ∧
    ((∃ j rd, j * 1 < 10 ∧ exFetchPPC j = .ok rd ∧
        statusIs rd "complete" = true ∧
        (wait_for_record_completion "r1" exFetchPPC 10 1).1 = .ok rd) ∨
     (∃ j rd, j * 1 < 10 ∧ exFetchPPC j = .ok rd ∧
        statusIs rd "error" = true ∧
        (wait_for_record_completion "r1" exFetchPPC 10 1).1 =
          .error (.nebuia (errMsgOf rd))) ∨
     ((wait_for_record_completion "r1" exFetchPPC 10 1).1 =
        .error (.timeoutExceeded (timeoutMsg "r1" 10)))) ∧
    ((wait_for_record_completion "r1" exFetchPPC 10 1).2 =
      (List.range
        (wait_for_record_completion "r1" exFetchPPC 10 1).2.length).map
        (fun i => i * 1)) ∧
    (1 ≤ 10 →
      (wait_for_record_completion "r1" exFetchPPC 10 1).2.head? = some 0) :=
  ⟨by decide,
    C6_wait_for_record_completion_amended "r1" exFetchPPC 10 1 (by decide)
      (fun m => ⟨_, rfl⟩)⟩

/-! ### The workflow orchestrator `process_documents` (exec.py:193-274)

The remote service is an oracle environment `Env`.  `recordDetails` is
indexed by a global call counter threaded through the run (the record
evolves between calls); `docStatus` is indexed by the polling round of the
embedding wait; `uploadDoc` and `verify` are keyed by the document type
and document id respectively (each is called at most once per key in a
run).  Every function returns the list of remote operations it performed,
in order, as `Event`s. -/

/-- Remote operations the orchestrator can perform. -/
inductive Event where
  | createRecordCall
  | uploadCall (doc_type : String)
  | detailsCall (n : Nat)
  | statusCheck (doc_type : String)
  | verifyCall (doc_type : String)
  | createJobCall
  deriving DecidableEq, Repr

/-- Oracle environment: the response (or raised exception) of each remote
endpoint call. -/
structure Env where
  fsExists : String → Bool
  createRecord : Except Err Val
  uploadDoc : String → Except Err Val
  recordDetails : Nat → Except Err Val
  docStatus : Val → Nat → Except Err Val
  verify : Val → Except Err Val
  createJob : Except Err Val

/-- Approximate rendering of a Python value for interpolated log/error
strings (`str(...)`); never branched on. -/
def valText : Val → String
  | .str s => s
  | .null => "None"
  | .bool true => "True"
  | .bool false => "False"
  | .int n => toString n
  | .list _ => "[...]"
  | .dict _ => "{...}"

/-- Approximate `str(e)` of a raised exception; carried only inside error
dicts and messages, never branched on. -/
def errStr : Err → String
  | .validation m => m
  | .api c m => "API Error (" ++ toString c ++ "): " ++ m
  | .nebuia v => valText v
  | .timeoutExceeded m => m
  | .keyError k => k
  | .typeError m => m
  | .attributeError m => m

/-- Python `v[k] = x` for a string key (dict item assignment; `TypeError`
on non-dicts). -/
def Val.setItem (v : Val) (k : String) (x : Val) : Except Err Val :=
  match v with
  | .dict fs => .ok (.dict (alSetG fs k x))
  | _ => .error (.typeError "object does not support item assignment")

/-- `NebuiaHandler.verify_document_type` (exec.py:168): call the verify
endpoint, take `result.get("status") is True` as the pass flag, and turn
any raised exception into `(False, {"status": False, "error": str(e)})`. -/
def verify_document_type (verify : Val → Except Err Val) (doc_id : Val) :
    Bool × Val :=
  match verify doc_id with
  | .ok result =>
    (match result.get "status" with
     | some (.bool true) => true
     | _ => false,
     result)
  | .error e =>
    (false, .dict [("status", .bool false), ("error", .str (errStr e))])

/-- Loop of `_verify_all_documents` (exec.py:403-416): for each tracked
document type, skip it entirely when its `doc_id` is falsy (`if doc_id:`),
otherwise verify it, record the verification under the type and clear the
overall flag on failure.  (The `try/except` around `verify_document_type`
is dead: that call already catches every exception.)  Returns
`((verification_results, verification_passed), checked document types)`. -/
def verifyLoop (verify : Val → Except Err Val) :
    List (String × Val) → List (String × Val) → Bool →
    (List (String × Val) × Bool) × List String
  | [], results, passed => ((results, passed), [])
  | (doc_type, doc_id) :: rest, results, passed =>
    if doc_id.truthy then
      let v := verify_document_type verify doc_id
      let results' := alSetG results doc_type v.2
      let passed' := if !v.1 then false else passed
      let r := verifyLoop verify rest results' passed'
      (r.1, doc_type :: r.2)
    else
      verifyLoop verify rest results passed

/-- `NebuiaHandler._verify_all_documents` (exec.py:384). -/
def _verify_all_documents (verify : Val → Except Err Val)
    (document_ids : List (String × Val)) :
    (List (String × Val) × Bool) × List String :=
  verifyLoop verify document_ids [] true

/-- The document search of `_create_and_upload` (exec.py:312-315): first
entry of `record_details.get("documents", [])` whose `document_type`
equals the uploaded type (`none` when there is no match or the value is
not a list — the latter raises inside the per-document `try` in the
source, which likewise drops the document type). -/
def findDoc (docsVal : Val) (doc_type : String) : Option Val :=
  match docsVal with
  | .list ds => ds.find? (fun d => d.getD "document_type" Val.null = Val.str doc_type)
  | _ => none

/-- Upload loop of `_create_and_upload` (exec.py:305-318): per document
type, a `try` covers the upload call, the follow-up `get_record_details`
and the document-id search; any raised exception is logged and that
document type is dropped (no abort).  On success the type maps to
`document.get("document_id")` — `None` when the matching document lacks
the field.  Threads the `recordDetails` call counter. -/
def uploadLoop (env : Env) :
    List (String × String) → List (String × Val) → Nat →
    List (String × Val) × Nat × List Event
  | [], document_ids, n => (document_ids, n, [])
  | (doc_type, _file_path) :: rest, document_ids, n =>
    match env.uploadDoc doc_type with
    | .error _ =>
      let r := uploadLoop env rest document_ids n
      (r.1, r.2.1, Event.uploadCall doc_type :: r.2.2)
    | .ok _ =>
      match env.recordDetails n with
      | .error _ =>
        let r := uploadLoop env rest document_ids (n + 1)
        (r.1, r.2.1, Event.uploadCall doc_type :: Event.detailsCall n :: r.2.2)
      | .ok details =>
        let document_ids' :=
          match findDoc (details.getD "documents" (.list [])) doc_type with
          | some document =>
            alSetG document_ids doc_type (document.getD "document_id" Val.null)
          | none => document_ids
        let r := uploadLoop env rest document_ids' (n + 1)
        (r.1, r.2.1, Event.uploadCall doc_type :: Event.detailsCall n :: r.2.2)

/-- `NebuiaHandler._create_and_upload` (exec.py:276-324): create the
record, abort with `None` when the response has no truthy `id`, upload
every document sequentially, abort with `None` when no document type got
an id entry.  Returns the payload `{"id": record_id, "document_ids": …}`
as a pair. -/
def _create_and_upload (env : Env) (documents : List (String × String))
    (config_name : String) (n₀ : Nat) :
    Except Err (Option (Val × List (String × Val))) × Nat × List Event :=
  match env.createRecord with
  | .error e => (.error e, n₀, [.createRecordCall])
  | .ok record_response =>
    let record_id := record_response.getD "id" Val.null
    if !record_id.truthy then (.ok none, n₀, [.createRecordCall])
    else
      let r := uploadLoop env documents [] n₀
      if r.1.isEmpty then (.ok none, r.2.1, .createRecordCall :: r.2.2)
      else (.ok (some (record_id, r.1)), r.2.1, .createRecordCall :: r.2.2)

/-- The `try` block of `_process_record` (exec.py:440-467): create the
processing job and, when requested, wait for completion.  Every failure
inside — a job-creation error, a wait timeout (`except TimeoutError`), a
`NebuiaError` (which also covers fetch errors propagating out of
`wait_for_record_completion`), or any other exception reaching the outer
`except Exception` — is caught and control falls through to the final
re-fetch; `some` is returned only when the completed record was obtained
and decorated with the verification results. -/
def processRecordTry (env : Env) (record_id : Val)
    (verification_results : Val) (wait_for_completion : Bool)
    (timeout : Nat) (n : Nat) : Option Val × Nat × List Event :=
  match env.createJob with
  | .error _ => (none, n, [.createJobCall])
  | .ok _job_response =>
    if wait_for_completion then
      let w := wait_for_record_completion (valText record_id)
        (fun i => env.recordDetails (n + i)) timeout 10
      let n' := n + w.2.length
      let evs := Event.createJobCall ::
        (List.range w.2.length).map (fun i => Event.detailsCall (n + i))
      match w.1 with
      | .ok completed_record =>
        match completed_record.setItem "verification_results" verification_results with
        | .ok decorated => (some decorated, n', evs)
        | .error _ => (none, n', evs)
      | .error _ => (none, n', evs)
    else (none, n, [.createJobCall])

/-- `NebuiaHandler._process_record` (exec.py:420-474): run the `try`
block, and unless it returned a decorated completed record, re-fetch the
record (exec.py:472, outside any `try` — its errors propagate) and attach
the verification results. -/
def _process_record (env : Env) (record_id : Val)
    (verification_results : Val) (wait_for_completion : Bool)
    (timeout : Nat) (n : Nat) : Except Err Val × Nat × List Event :=
  let t := processRecordTry env record_id verification_results
    wait_for_completion timeout n
  match t.1 with
  | some v => (.ok v, t.2.1, t.2.2)
  | none =>
    match env.recordDetails t.2.1 with
    | .error e => (.error e, t.2.1 + 1, t.2.2 ++ [.detailsCall t.2.1])
    | .ok rd =>
      match rd.setItem "verification_results" verification_results with
      | .error e => (.error e, t.2.1 + 1, t.2.2 ++ [.detailsCall t.2.1])
      | .ok rd' => (.ok rd', t.2.1 + 1, t.2.2 ++ [.detailsCall t.2.1])

/-- The `try` block of `process_documents` (exec.py:219-270): validate,
create-and-upload, wait for embedding (bailing out with the raw record
snapshot on timeout), verify every document type, attach
`verification_results`, and either trigger the processing job (only when
`auto_process` is set AND verification passed) or return the decorated
record unprocessed. -/
def processBody (env : Env) (documents : List (String × String))
    (config_name : String) (wait_for_completion : Bool) (timeout : Nat)
    (auto_process : Bool) (status_check_interval status_check_timeout : Nat) :
    Except Err (Option Val) × List Event :=
  let valid_documents := validate_documents env.fsExists documents
  if valid_documents.isEmpty then (.ok none, [])
  else
    match _create_and_upload env valid_documents config_name 0 with
    | (.error e, _, ev) => (.error e, ev)
    | (.ok none, _, ev) => (.ok none, ev)
    | (.ok (some (record_id, document_ids)), n, ev) =>
      let w := _wait_for_embedding document_ids env.docStatus
        status_check_interval status_check_timeout
      let ev₁ := ev ++ w.2.join.map Event.statusCheck
      if !w.1 then
        match env.recordDetails n with
        | .error e => (.error e, ev₁ ++ [.detailsCall n])
        | .ok rd => (.ok (some rd), ev₁ ++ [.detailsCall n])
      else
        let vr := _verify_all_documents env.verify document_ids
        let ev₂ := ev₁ ++ vr.2.map Event.verifyCall
        match env.recordDetails n with
        | .error e => (.error e, ev₂ ++ [.detailsCall n])
        | .ok rd =>
          match rd.setItem "verification_results" (.dict vr.1.1) with
          | .error e => (.error e, ev₂ ++ [.detailsCall n])
          | .ok rd' =>
            if auto_process && vr.1.2 then
              let p := _process_record env record_id (.dict vr.1.1)
                wait_for_completion timeout (n + 1)
              match p.1 with
              | .error e => (.error e, ev₂ ++ [.detailsCall n] ++ p.2.2)
              | .ok v => (.ok (some v), ev₂ ++ [.detailsCall n] ++ p.2.2)
            else (.ok (some rd'), ev₂ ++ [.detailsCall n])

/-- `NebuiaHandler.process_documents` (exec.py:193-274): the whole `try`
body wrapped in the top-level `except Exception` (exec.py:272), which
converts any raised exception into the absence value `None`. -/
def process_documents (env : Env) (documents : List (String × String))
    (config_name : String) (wait_for_completion : Bool) (timeout : Nat)
    (auto_process : Bool) (status_check_interval status_check_timeout : Nat) :
    Option Val × List Event :=
  let b := processBody env documents config_name wait_for_completion timeout
    auto_process status_check_interval status_check_timeout
  match b.1 with
  | .ok r => (r, b.2)
  | .error _ => (none, b.2)

theorem alGet_alSetG (m : List (String × Val)) (k k' : String) (v : Val) :
    alGet (alSetG m k v) k' = if k' = k then some v else alGet m k' := by
  induction m with
  | nil =>
    simp only [alSetG, alGet]
    by_cases h : k = k'
    · subst h
      simp
    · rw [if_neg h, if_neg (fun hh : k' = k => h hh.symm)]
  | cons hd tl ih =>
    obtain ⟨k₀, v₀⟩ := hd
    by_cases h0 : k₀ = k
    · subst h0
      simp only [alSetG, if_pos rfl, alGet]
      by_cases h : k₀ = k'
      · subst h
        simp
      · rw [if_neg h, if_neg (fun hh : k' = k₀ => h hh.symm), if_neg h]
    · simp only [alSetG, if_neg h0, alGet, ih]
      by_cases h : k₀ = k'
      · subst h
        rw [if_pos rfl, if_neg (fun hh : k₀ = k => h0 hh), if_pos rfl]
      · rw [if_neg h, if_neg h]

theorem verifyLoop_checked (verify : Val → Except Err Val) :
    ∀ (ids : List (String × Val)) results passed,
      (verifyLoop verify ids results passed).2 =
        (ids.filter (fun x => x.2.truthy)).map Prod.fst := by
  intro ids
  induction ids with
  | nil =>
    intro results passed
    rfl
  | cons hd tl ih =>
    obtain ⟨dt, did⟩ := hd
    intro results passed
    by_cases ht : did.truthy
    · simp [verifyLoop, ht, List.filter, ih]
    · simp [verifyLoop, ht, List.filter, ih]

theorem verifyLoop_passed (verify : Val → Except Err Val) :
    ∀ (ids : List (String × Val)) results passed,
      (verifyLoop verify ids results passed).1.2 =
        (passed && ids.all
          (fun x => !x.2.truthy || (verify_document_type verify x.2).1)) := by
  intro ids
  induction ids with
  | nil =>
    intro results passed
    simp [verifyLoop]
  | cons hd tl ih =>
    obtain ⟨dt, did⟩ := hd
    intro results passed
    by_cases ht : did.truthy
    · cases hv : (verify_document_type verify did).1 with
      | false =>
        simp [verifyLoop, ht, hv, ih]
      | true =>
        simp [verifyLoop, ht, hv, ih]
    · simp only [Bool.not_eq_true] at ht
      simp [verifyLoop, ht, ih]

theorem verifyLoop_results_pres (verify : Val → Except Err Val) :
    ∀ (ids : List (String × Val)) results passed doc_type,
      (∀ doc_id, (doc_type, doc_id) ∈ ids → doc_id.truthy = false) →
      alGet (verifyLoop verify ids results passed).1.1 doc_type =
        alGet results doc_type := by
  intro ids
  induction ids with
  | nil =>
    intro results passed dt _
    rfl
  | cons hd tl ih =>
    obtain ⟨dt', did'⟩ := hd
    intro results passed dt hfalsy
    by_cases ht : did'.truthy
    · have hne : dt' ≠ dt := by
        intro h
        subst h
        rw [hfalsy did' (by simp)] at ht
        exact Bool.false_ne_true ht
      simp only [verifyLoop, ht, if_pos]
      rw [ih _ _ dt (fun did hdid => hfalsy did (by simp [hdid])),
        alGet_alSetG]
      rw [if_neg (fun hh : dt = dt' => hne hh.symm)]
    · simp only [Bool.not_eq_true] at ht
      simp only [verifyLoop, ht, Bool.false_eq_true, if_false]
      exact ih _ _ dt (fun did hdid => hfalsy did (by simp [hdid]))

theorem verifyLoop_results_isSome_mono (verify : Val → Except Err Val) :
    ∀ (ids : List (String × Val)) results passed doc_type,
      (alGet results doc_type).isSome = true →
      (alGet (verifyLoop verify ids results passed).1.1 doc_type).isSome = true := by
  intro ids
  induction ids with
  | nil =>
    intro results passed dt h
    exact h
  | cons hd tl ih =>
    obtain ⟨dt', did'⟩ := hd
    intro results passed dt h
    by_cases ht : did'.truthy
    · simp only [verifyLoop, ht, if_pos]
      apply ih
      rw [alGet_alSetG]
      by_cases he : dt = dt'
      · simp [he]
      · simpa [he] using h
    · simp only [Bool.not_eq_true] at ht
      simp only [verifyLoop, ht, Bool.false_eq_true, if_false]
      exact ih _ _ dt h

theorem verifyLoop_results_mem (verify : Val → Except Err Val) :
    ∀ (ids : List (String × Val)) results passed doc_type doc_id,
      (doc_type, doc_id) ∈ ids → doc_id.truthy = true →
      (alGet (verifyLoop verify ids results passed).1.1 doc_type).isSome = true := by
  intro ids
  induction ids with
  | nil =>
    intro results passed dt did h
    simp at h
  | cons hd tl ih =>
    obtain ⟨dt', did'⟩ := hd
    intro results passed dt did hmem htruthy
    rcases List.mem_cons.mp hmem with heq | hmem'
    · obtain ⟨rfl, rfl⟩ := Prod.mk.injEq .. ▸ heq
      simp only [verifyLoop, htruthy, if_pos]
      apply verifyLoop_results_isSome_mono
      rw [alGet_alSetG, if_pos rfl]
      rfl
    · by_cases ht : did'.truthy
      · simp only [verifyLoop, ht, if_pos]
        exact ih _ _ dt did hmem' htruthy
      · simp only [Bool.not_eq_true] at ht
        simp only [verifyLoop, ht, Bool.false_eq_true, if_false]
        exact ih _ _ dt did hmem' htruthy

/-- Environment in which the uploaded document's entry in the record
details lacks a `document_id` field, so `_create_and_upload` stores
`None` under the document type. -/
def envC9 : Env :=
  ⟨fun _ => true,
   .ok (.dict [("id", .str "r1")]),
   fun _ => .ok .null,
   fun _ => .ok (.dict [("documents", .list [.dict [("document_type", .str "t")]])]),
   fun _ _ => .ok .null,
   fun _ => .ok .null,
   .ok .null⟩

/-- **C9.** `_verify_all_documents` produces a verification result exactly
for the document types whose mapped id is truthy (`if doc_id:`); a falsy
id (such as the `None` that `_create_and_upload` stores when the uploaded
document lacks a `document_id` in the record details — shown concretely in
the last conjunct) is silently skipped: it is never verified, contributes
no entry to `verification_results`, and does not clear the overall pass
flag, so overall verification can pass with that document type never
verified. -/
theorem C9_verify_all_documents_skips_falsy (verify : Val → Except Err Val)
    (document_ids : List (String × Val)) :
    (∀ doc_type,
      (alGet (_verify_all_documents verify document_ids).1.1 doc_type).isSome = true ↔
      ∃ doc_id, (doc_type, doc_id) ∈ document_ids ∧ doc_id.truthy = true) ∧
    ((_verify_all_documents verify document_ids).2 =
      (document_ids.filter (fun x => x.2.truthy)).map Prod.fst) ∧
    ((_verify_all_documents verify document_ids).1.2 =
      document_ids.all
        (fun x => !x.2.truthy || (verify_document_type verify x.2).1)) ∧
    (_create_and_upload envC9 [("t", "t.pdf")] "cfg" 0 =
      (.ok (some (Val.str "r1", [("t", Val.null)])), 1,
        [.createRecordCall, .uploadCall "t", .detailsCall 0])) ∧
    ((_verify_all_documents envC9.verify [("t", Val.null)]).1.2 = true) ∧
    ((_verify_all_documents envC9.verify [("t", Val.null)]).2 = []) := by
  refine ⟨?_, verifyLoop_checked verify document_ids [] true,
    by simpa using verifyLoop_passed verify document_ids [] true,
    by rfl, by decide, by decide⟩
  intro dt
  constructor
  · intro hsome
    by_contra hno
    push_neg at hno
    rw [_verify_all_documents, verifyLoop_results_pres verify document_ids [] true dt
      (fun did hdid => by simpa using hno did hdid)] at hsome
    simp [alGet] at hsome
  · rintro ⟨did, hmem, htruthy⟩
    exact verifyLoop_results_mem verify document_ids [] true dt did hmem htruthy

/-- **C2.** For every input (documents mapping, configuration name and
option flags), the orchestrator entry point never raises:
`process_documents` is the `try` body (`processBody`) wrapped in the
top-level `except Exception` (exec.py:272-274), so whenever the body
raises an exception the caller receives the absence value `None` instead.
(Every `Err` constructor models a Python `Exception` subclass — the
exceptions the embedded code can raise — so the bare `except Exception`
catches each of them.) -/
theorem C2_process_documents_never_raises (env : Env)
    (documents : List (String × String)) (config_name : String)
    (wait_for_completion : Bool) (timeout : Nat) (auto_process : Bool)
    (status_check_interval status_check_timeout : Nat) (e : Err)
    (h : (processBody env documents config_name wait_for_completion timeout
      auto_process status_check_interval status_check_timeout).1 = .error e) :
    (process_documents env documents config_name wait_for_completion timeout
      auto_process status_check_interval status_check_timeout).1 = none := by
  rcases hb : processBody env documents config_name wait_for_completion timeout
      auto_process status_check_interval status_check_timeout with ⟨res, evs⟩
  rw [hb] at h
  simp only [] at h
  subst h
  simp [process_documents, hb]

/-- Environment whose create-record call raises. -/
def envErrC2 : Env :=
  ⟨fun _ => true,
   .error (.nebuia (.str "Network error: connection failed")),
   fun _ => .ok .null, fun _ => .ok .null, fun _ _ => .ok .null,
   fun _ => .ok .null, .ok .null⟩

/-- Witness for C2: a run whose create-record call raises ends with
`None`, not an exception. -/
theorem C2_process_documents_never_raises_witness :
    (processBody envErrC2 [("t", "t.pdf")] "cfg" true 300 true 5 180).1 =
      .error (.nebuia (.str "Network error: connection failed")) ∧
    (process_documents envErrC2 [("t", "t.pdf")] "cfg" true 300 true 5 180).1 = none :=
  ⟨by rfl, C2_process_documents_never_raises envErrC2 [("t", "t.pdf")] "cfg"
    true 300 true 5 180 (.nebuia (.str "Network error: connection failed")) (by rfl)⟩

theorem uploadLoop_events (env : Env) :
    ∀ (docs : List (String × String)) ids n e,
      e ∈ (uploadLoop env docs ids n).2.2 →
      (∃ dt, e = .uploadCall dt) ∨ (∃ m, e = .detailsCall m) := by
  intro docs
  induction docs with
  | nil =>
    intro ids n e h
    simp [uploadLoop] at h
  | cons hd tl ih =>
    obtain ⟨dt, fp⟩ := hd
    intro ids n e h
    cases hu : env.uploadDoc dt with
    | error e' =>
      simp only [uploadLoop, hu] at h
      rcases List.mem_cons.mp h with rfl | h'
      · exact Or.inl ⟨dt, rfl⟩
      · exact ih _ _ e h'
    | ok u =>
      cases hr : env.recordDetails n with
      | error e' =>
        simp only [uploadLoop, hu, hr] at h
        rcases List.mem_cons.mp h with rfl | h'
        · exact Or.inl ⟨dt, rfl⟩
        · rcases List.mem_cons.mp h' with rfl | h''
          · exact Or.inr ⟨n, rfl⟩
          · exact ih _ _ e h''
      | ok details =>
        simp only [uploadLoop, hu, hr] at h
        rcases List.mem_cons.mp h with rfl | h'
        · exact Or.inl ⟨dt, rfl⟩
        · rcases List.mem_cons.mp h' with rfl | h''
          · exact Or.inr ⟨n, rfl⟩
          · exact ih _ _ e h''

theorem createUpload_events (env : Env) (docs : List (String × String))
    (config_name : String) (n₀ : Nat) :
    ∀ e ∈ (_create_and_upload env docs config_name n₀).2.2,
      e = .createRecordCall ∨ (∃ dt, e = .uploadCall dt) ∨
        (∃ m, e = .detailsCall m) := by
  intro e h
  cases hc : env.createRecord with
  | error e' =>
    simp only [_create_and_upload, hc, List.mem_singleton] at h
    exact Or.inl h
  | ok record_response =>
    by_cases htr : (record_response.getD "id" Val.null).truthy
    · by_cases hemp : (uploadLoop env docs [] n₀).1.isEmpty
      · simp only [_create_and_upload, hc, htr, hemp, Bool.not_true,
          Bool.false_eq_true, if_false, if_true, List.mem_cons] at h
        rcases h with rfl | h'
        · exact Or.inl rfl
        · exact Or.inr (uploadLoop_events env docs [] n₀ e h')
      · simp only [_create_and_upload, hc, htr, Bool.not_true,
          Bool.false_eq_true, if_false, List.mem_cons] at h
        rw [if_neg hemp] at h
        rcases List.mem_cons.mp h with rfl | h'
        · exact Or.inl rfl
        · exact Or.inr (uploadLoop_events env docs [] n₀ e h')
    · simp only [Bool.not_eq_true] at htr
      simp only [_create_and_upload, hc, htr, Bool.not_false, if_true,
        List.mem_singleton] at h
      exact Or.inl h

theorem createUpload_no_verify_no_job (env : Env)
    (docs : List (String × String)) (config_name : String) (n₀ : Nat) :
    (∀ doc_type, Event.verifyCall doc_type ∉
      (_create_and_upload env docs config_name n₀).2.2) ∧
    Event.createJobCall ∉ (_create_and_upload env docs config_name n₀).2.2 := by
  constructor
  · intro dt hmem
    rcases createUpload_events env docs config_name n₀ _ hmem with h | ⟨d, h⟩ | ⟨m, h⟩ <;>
      exact Event.noConfusion h
  · intro hmem
    rcases createUpload_events env docs config_name n₀ _ hmem with h | ⟨d, h⟩ | ⟨m, h⟩ <;>
      exact Event.noConfusion h

theorem createUpload_nil_no_some (env : Env) (config_name : String) (n₀ : Nat)
    (record_id : Val) (document_ids : List (String × Val)) (n : Nat)
    (ev : List Event) :
    _create_and_upload env [] config_name n₀ ≠
      (.ok (some (record_id, document_ids)), n, ev) := by
  intro h
  cases hc : env.createRecord with
  | error e' =>
    simp [_create_and_upload, hc] at h
  | ok record_response =>
    by_cases htr : (record_response.getD "id" Val.null).truthy
    · simp [_create_and_upload, hc, htr, uploadLoop] at h
    · simp only [Bool.not_eq_true] at htr
      simp [_create_and_upload, hc, htr] at h

/-- **C3.** In every run in which the embedding wait phase ends
unsuccessfully (at least one document still pending when the budget ran
out), the orchestrator performs no document-type verification call and no
job creation, and — when the follow-up snapshot fetch succeeds — returns
that raw Record snapshot exactly as fetched (in particular, with no
`verification_results` key attached by the orchestrator). -/
theorem C3_embedding_timeout_returns_snapshot (env : Env)
    (documents : List (String × String)) (config_name : String)
    (wait_for_completion : Bool) (timeout : Nat) (auto_process : Bool)
    (status_check_interval status_check_timeout : Nat)
    (record_id : Val) (document_ids : List (String × Val)) (n : Nat)
    (ev : List Event)
    (hca : _create_and_upload env (validate_documents env.fsExists documents)
      config_name 0 = (.ok (some (record_id, document_ids)), n, ev))
    (hemb : (_wait_for_embedding document_ids env.docStatus
      status_check_interval status_check_timeout).1 = false) :
    (∀ doc_type, Event.verifyCall doc_type ∉
      (process_documents env documents config_name wait_for_completion timeout
        auto_process status_check_interval status_check_timeout).2) ∧
    (Event.createJobCall ∉
      (process_documents env documents config_name wait_for_completion timeout
        auto_process status_check_interval status_check_timeout).2) ∧
    (∀ rd, env.recordDetails n = .ok rd →
      (process_documents env documents config_name wait_for_completion timeout
        auto_process status_check_interval status_check_timeout).1 = some rd) := by
  have hvalid : (validate_documents env.fsExists documents).isEmpty = false := by
    cases hv : validate_documents env.fsExists documents with
    | nil =>
      rw [hv] at hca
      exact absurd hca (createUpload_nil_no_some env config_name 0 _ _ _ _)
    | cons a l => rfl
  have hbody : processBody env documents config_name wait_for_completion timeout
      auto_process status_check_interval status_check_timeout =
      (match env.recordDetails n with
       | .error e => (.error e,
          (ev ++ (_wait_for_embedding document_ids env.docStatus
            status_check_interval status_check_timeout).2.join.map Event.statusCheck)
            ++ [.detailsCall n])
       | .ok rd => (.ok (some rd),
          (ev ++ (_wait_for_embedding document_ids env.docStatus
            status_check_interval status_check_timeout).2.join.map Event.statusCheck)
            ++ [.detailsCall n])) := by
    unfold processBody
    rw [if_neg (by simp [hvalid]), hca]
    simp only [hemb, Bool.not_false, if_pos]
  have hevsub : ∀ e, e ∈ (processBody env documents config_name wait_for_completion
      timeout auto_process status_check_interval status_check_timeout).2 →
      e ∈ ev ∨ (∃ dt, e = .statusCheck dt) ∨ e = .detailsCall n := by
    intro e he
    rw [hbody] at he
    cases hrd : env.recordDetails n with
    | error e' =>
      rw [hrd] at he
      simp only [List.mem_append, List.mem_singleton, List.mem_map] at he
      rcases he with (he | ⟨dt, _, rfl⟩) | he
      · exact Or.inl he
      · exact Or.inr (Or.inl ⟨dt, rfl⟩)
      · exact Or.inr (Or.inr he)
    | ok rd =>
      rw [hrd] at he
      simp only [List.mem_append, List.mem_singleton, List.mem_map] at he
      rcases he with (he | ⟨dt, _, rfl⟩) | he
      · exact Or.inl he
      · exact Or.inr (Or.inl ⟨dt, rfl⟩)
      · exact Or.inr (Or.inr he)
  have hev2 : (process_documents env documents config_name wait_for_completion
      timeout auto_process status_check_interval status_check_timeout).2 =
      (processBody env documents config_name wait_for_completion timeout
      auto_process status_check_interval status_check_timeout).2 := by
    rcases hb : processBody env documents config_name wait_for_completion timeout
      auto_process status_check_interval status_check_timeout with ⟨res, evs⟩
    cases res <;> simp [process_documents, hb]
  refine ⟨?_, ?_, ?_⟩
  · intro dt hmem
    rw [hev2] at hmem
    rcases hevsub _ hmem with he | ⟨d, he⟩ | he
    · have hne := hca ▸ (createUpload_no_verify_no_job env
        (validate_documents env.fsExists documents) config_name 0).1 dt
      exact hne he
    · exact Event.noConfusion he
    · exact Event.noConfusion he
  · intro hmem
    rw [hev2] at hmem
    rcases hevsub _ hmem with he | ⟨d, he⟩ | he
    · have hne := hca ▸ (createUpload_no_verify_no_job env
        (validate_documents env.fsExists documents) config_name 0).2
      exact hne he
    · exact Event.noConfusion he
    · exact Event.noConfusion he
  · intro rd hrd
    rcases hb : processBody env documents config_name wait_for_completion timeout
      auto_process status_check_interval status_check_timeout with ⟨res, evs⟩
    have : res = .ok (some rd) := by
      have := hbody ▸ hb
      rw [hrd] at this
      exact (congrArg Prod.fst this.symm)
    subst this
    simp [process_documents, hb]

/-- Environment for the C3 witness: one document uploads fine but its
embedding status stays `pending` forever. -/
def envC3 : Env :=
  ⟨fun _ => true,
   .ok (.dict [("id", .str "r1")]),
   fun _ => .ok .null,
   fun _ => .ok (.dict [("status", .str "waiting"),
     ("documents", .list [.dict [("document_type", .str "t"),
       ("document_id", .str "d1")]])]),
   fun _ _ => .ok (.dict [("status", .str "pending")]),
   fun _ => .ok (.dict [("status", .bool true)]),
   .ok (.dict [("job_id", .str "j1")])⟩

/-- Witness for C3 at a concrete input: the embedding wait (interval 1,
timeout 3) never sees the document complete, so the run performs no
verification call, creates no job, and returns the raw snapshot. -/
theorem C3_embedding_timeout_returns_snapshot_witness :
    (Event.verifyCall "t" ∉
      (process_documents envC3 [("t", "t.pdf")] "cfg" true 300 true 1 3).2) ∧
    (Event.createJobCall ∉
      (process_documents envC3 [("t", "t.pdf")] "cfg" true 300 true 1 3).2) ∧
    ((process_documents envC3 [("t", "t.pdf")] "cfg" true 300 true 1 3).1 =
      some (.dict [("status", .str "waiting"),
        ("documents", .list [.dict [("document_type", .str "t"),
          ("document_id", .str "d1")]])])) := by
  have h := C3_embedding_timeout_returns_snapshot envC3 [("t", "t.pdf")] "cfg"
    true 300 true 1 3 (.str "r1") [("t", .str "d1")] 1
    [.createRecordCall, .uploadCall "t", .detailsCall 0] (by rfl) (by rfl)
  exact ⟨h.1 "t", h.2.1, h.2.2 _ (by rfl)⟩

theorem process_documents_events (env : Env)
    (documents : List (String × String)) (config_name : String)
    (wait_for_completion : Bool) (timeout : Nat) (auto_process : Bool)
    (status_check_interval status_check_timeout : Nat) :
    (process_documents env documents config_name wait_for_completion timeout
      auto_process status_check_interval status_check_timeout).2 =
    (processBody env documents config_name wait_for_completion timeout
      auto_process status_check_interval status_check_timeout).2 := by
  rcases hb : processBody env documents config_name wait_for_completion timeout
    auto_process status_check_interval status_check_timeout with ⟨res, evs⟩
  cases res <;> simp [process_documents, hb]

/-- **C1.** In every orchestrator run, the create-processing-job operation
is invoked only if auto-processing was enabled by the caller AND the
aggregated verification pass flag is true — which means every performed
document-type verification (those whose mapped document id is truthy)
returned a pass; in every other run no processing job is ever created. -/
theorem C1_job_requires_auto_process_and_pass (env : Env)
    (documents : List (String × String)) (config_name : String)
    (wait_for_completion : Bool) (timeout : Nat) (auto_process : Bool)
    (status_check_interval status_check_timeout : Nat)
    (h : Event.createJobCall ∈
      (process_documents env documents config_name wait_for_completion timeout
        auto_process status_check_interval status_check_timeout).2) :
    auto_process = true ∧
    ∃ record_id document_ids n ev,
      _create_and_upload env (validate_documents env.fsExists documents)
        config_name 0 = (.ok (some (record_id, document_ids)), n, ev) ∧
      (_verify_all_documents env.verify document_ids).1.2 = true ∧
      (∀ doc_type doc_id, (doc_type, doc_id) ∈ document_ids →
        doc_id.truthy = true →
        (verify_document_type env.verify doc_id).1 = true) := by
  rw [process_documents_events] at h
  by_cases hval : (validate_documents env.fsExists documents).isEmpty
  · simp [processBody, hval] at h
  · rcases hca : _create_and_upload env (validate_documents env.fsExists documents)
      config_name 0 with ⟨res1, n1, ev1⟩
    have hnojob1 : Event.createJobCall ∉ ev1 := by
      have := (createUpload_no_verify_no_job env
        (validate_documents env.fsExists documents) config_name 0).2
      rw [hca] at this
      exact this
    cases res1 with
    | error e =>
      simp only [processBody, hval, Bool.false_eq_true, if_false, hca] at h
      exact absurd h hnojob1
    | ok opt =>
      cases opt with
      | none =>
        simp only [processBody, hval, Bool.false_eq_true, if_false, hca] at h
        exact absurd h hnojob1
      | some pair =>
        obtain ⟨record_id, document_ids⟩ := pair
        cases hw : (_wait_for_embedding document_ids env.docStatus
          status_check_interval status_check_timeout).1 with
        | false =>
          simp only [processBody, hval, Bool.false_eq_true, if_false, hca,
            hw, Bool.not_false, if_true] at h
          cases hrd : env.recordDetails n1 with
          | error e =>
            rw [hrd] at h
            simp only [List.mem_append, List.mem_singleton, List.mem_map] at h
            rcases h with (h | ⟨d, _, h⟩) | h
            · exact absurd h hnojob1
            · exact Event.noConfusion h
            · exact Event.noConfusion h
          | ok rd =>
            rw [hrd] at h
            simp only [List.mem_append, List.mem_singleton, List.mem_map] at h
            rcases h with (h | ⟨d, _, h⟩) | h
            · exact absurd h hnojob1
            · exact Event.noConfusion h
            · exact Event.noConfusion h
        | true =>
          cases hrd : env.recordDetails n1 with
          | error e =>
            simp only [processBody, hval, Bool.false_eq_true, if_false, hca,
              hw, Bool.not_true, hrd] at h
            simp only [List.mem_append, List.mem_singleton, List.mem_map] at h
            rcases h with ((h | ⟨d, _, h⟩) | ⟨d, _, h⟩) | h
            · exact absurd h hnojob1
            · exact Event.noConfusion h
            · exact Event.noConfusion h
            · exact Event.noConfusion h
          | ok rd =>
            cases hset : rd.setItem "verification_results"
              (.dict (_verify_all_documents env.verify document_ids).1.1) with
            | error e =>
              simp only [processBody, hval, Bool.false_eq_true, if_false, hca,
                hw, Bool.not_true, hrd, hset] at h
              simp only [List.mem_append, List.mem_singleton, List.mem_map] at h
              rcases h with ((h | ⟨d, _, h⟩) | ⟨d, _, h⟩) | h
              · exact absurd h hnojob1
              · exact Event.noConfusion h
              · exact Event.noConfusion h
              · exact Event.noConfusion h
            | ok rd' =>
              cases hap : auto_process &&
                (_verify_all_documents env.verify document_ids).1.2 with
              | false =>
                simp only [processBody, hval, Bool.false_eq_true, if_false, hca,
                  hw, Bool.not_true, hrd, hset, hap] at h
                simp only [List.mem_append, List.mem_singleton, List.mem_map] at h
                rcases h with ((h | ⟨d, _, h⟩) | ⟨d, _, h⟩) | h
                · exact absurd h hnojob1
                · exact Event.noConfusion h
                · exact Event.noConfusion h
                · exact Event.noConfusion h
              | true =>
                obtain ⟨hap1, hap2⟩ := Bool.and_eq_true .. ▸ hap
                refine ⟨hap1, record_id, document_ids, n1, ev1, rfl, hap2, ?_⟩
                intro dt did hmem htruthy
                have hall := verifyLoop_passed env.verify document_ids [] true
                rw [_verify_all_documents] at hap2
                rw [hap2, Bool.true_and] at hall
                have hx := List.all_eq_true.mp hall.symm (dt, did) hmem
                simpa [htruthy] using hx

/-- Environment for the C1 witness: upload, embedding and verification all
succeed, so with auto-processing enabled a job is created. -/
def envC1 : Env :=
  ⟨fun _ => true,
   .ok (.dict [("id", .str "r1")]),
   fun _ => .ok .null,
   fun _ => .ok (.dict [("status", .str "waiting"),
     ("documents", .list [.dict [("document_type", .str "t"),
       ("document_id", .str "d1")]])]),
   fun _ _ => .ok (.dict [("status", .str "complete")]),
   fun _ => .ok (.dict [("status", .bool true)]),
   .ok (.dict [("job_id", .str "j1")])⟩

/-- Witness for C1 at a concrete input: a run that does create a job, in
which auto-processing is indeed enabled and every performed verification
passed. -/
theorem C1_job_requires_auto_process_and_pass_witness :
    Event.createJobCall ∈
      (process_documents envC1 [("t", "t.pdf")] "cfg" false 300 true 1 3).2 ∧
    (true = true ∧
    ∃ record_id document_ids n ev,
      _create_and_upload envC1 (validate_documents envC1.fsExists
        [("t", "t.pdf")]) "cfg" 0 =
        (.ok (some (record_id, document_ids)), n, ev) ∧
      (_verify_all_documents envC1.verify document_ids).1.2 = true ∧
      (∀ doc_type doc_id, (doc_type, doc_id) ∈ document_ids →
        doc_id.truthy = true →
        (verify_document_type envC1.verify doc_id).1 = true)) :=
  ⟨by decide, C1_job_requires_auto_process_and_pass envC1 [("t", "t.pdf")]
    "cfg" false 300 true 1 3 (by decide)⟩

end Nebuia
